import Mathlib

/-!
# shimoExporter: a shallow embedding of `internal/pkg/shimo/shimo.go`

The Go package walks a remote document workspace, builds an in-memory tree of
folders and documents, and then exports and downloads every document to disk.

Conventions of the embedding:

* Go strings and byte slices are Lean strings.
* A Go pointer is an `Option` (`none` is the nil pointer) and a Go slice is an
  `Option (List _)` (`none` is the nil slice), so that "nil pointer", "pointer
  to a nil slice" and "pointer to an empty slice" stay three different values.
* Effects are explicit: a `World` carries the disk, the requests sent so far
  and the lines handed to the `Logger`; an `Env` carries everything the program
  does not control (the remote service, the JSON decoder, the pause channel).
* A Go `panic` is the outcome `panic`; a computation that would not finish
  within the given fuel (the unbounded polling loop, an unbounded hierarchy, a
  resume signal that never comes) is the outcome `hang`.
* Output written with `fmt.Println` to standard output, the real-time effect
  of `time.Sleep` and the text of the errors raised by the operating system and
  by the JSON decoder are not modelled.
* `FileCount` is a Go `int`; it is an unbounded integer here, since it counts
  entries held in memory and cannot reach the bounds of the machine type.
-/

namespace ShimoExporter

/-! ## Outcomes -/

/-- Result of running a piece of the program. -/
inductive Outcome (α : Type) where
  | ok (a : α)
  | panic (msg : String)
  | hang
deriving DecidableEq, Repr

/-- Sequencing: a panic or a hang of the first step ends the computation. -/
def Outcome.bind {α β : Type} : Outcome α → (α → Outcome β) → Outcome β
  | .ok a, f => f a
  | .panic m, _ => .panic m
  | .hang, _ => .hang

/-- Post-processing of a successful result. -/
def Outcome.map {α β : Type} (f : α → β) : Outcome α → Outcome β
  | .ok a => .ok (f a)
  | .panic m => .panic m
  | .hang => .hang

/-! ## Data model (shimo.go, lines 15-113) -/

structure ShimoUrl where
  Root : String
  List : String
  Export : String
  Query : String

/-- The four endpoints; a `%s` of the Go format strings is where the argument
is appended by `listUri`, `exportUri` and `queryUri` below. -/
def smUrl : ShimoUrl where
  Root := "https://shimo.im/lizard-api/files"
  List := "https://shimo.im/lizard-api/files?folder="
  Export := "https://shimo.im/lizard-api/office-gw/files/export?fileGuid="
  Query := "https://shimo.im/lizard-api/office-gw/files/export/progress?taskId="

/-- Value of `fmt.Sprintf(smUrl.List, id)`. -/
def listUri (id : String) : String := smUrl.List ++ id

/-- Value of `fmt.Sprintf(smUrl.Export, id, exportType)`. -/
def exportUri (id exportType : String) : String :=
  smUrl.Export ++ id ++ "&type=" ++ exportType

/-- Value of `fmt.Sprintf(smUrl.Query, tid)`. -/
def queryUri (tid : String) : String := smUrl.Query ++ tid

/-- Go `FileInfo`; the Go field `Type` is called `Kind` here because `Type` is
reserved in Lean. -/
structure FileInfo where
  Path : String
  Id : String
  Title : String
  Kind : String
  TaskId : String
deriving DecidableEq, Repr

/-- Go `DirInfo`: the embedded `FileInfo`, `Dirs *DirList` and
`Files *FileList`. -/
inductive DirInfo where
  | mk (info : FileInfo) (Dirs : Option (Option (List DirInfo)))
      (Files : Option (Option (List FileInfo)))

def DirInfo.info : DirInfo → FileInfo
  | .mk i _ _ => i

def DirInfo.Dirs : DirInfo → Option (Option (List DirInfo))
  | .mk _ d _ => d

def DirInfo.Files : DirInfo → Option (Option (List FileInfo))
  | .mk _ _ f => f

structure ExportResponse where
  Status : Int
  Message : String
  TaskId : String
deriving DecidableEq, Repr

structure TaskData where
  Progress : Int
  DownloadUrl : String
  FileSize : Int
  CostTime : Int
deriving DecidableEq, Repr

structure TaskResponse where
  Status : Int
  Code : Int
  Data : TaskData
deriving DecidableEq, Repr

structure UserCfg where
  ExportType : String
  ShimoSid : String
  RootPath : String
  RemoveBlank : Bool
deriving DecidableEq, Repr

structure HttpStrategy where
  SleepTime : Nat
  Retry10 : Int
  Retry2 : Int
  Retry20 : Int
deriving DecidableEq, Repr

/-- Go `Shimo` without its `Logger` (whose received lines are `World.log`) and
its `PauseChan` (whose traffic is `Env.pause`). -/
structure Shimo where
  UserCfg : UserCfg
  HttpStrategy : HttpStrategy
  FileCount : Int
deriving DecidableEq, Repr

/-- Go `NewDefaultShimo`; durations are in seconds. -/
def NewDefaultShimo : Shimo where
  UserCfg := { ExportType := "md", ShimoSid := "", RootPath := "./download", RemoveBlank := false }
  HttpStrategy := { SleepTime := 10, Retry10 := 10, Retry2 := 2, Retry20 := 20 }
  FileCount := 0

/-! ## The disk

Paths are interpreted lexically, the way `path/filepath` does on a system whose
separator is `/`: the disk is keyed by cleaned paths. Symbolic links and
case-insensitive file systems are outside the model. -/

/-- Splits at every `/`. -/
def splitSlash : List Char → List (List Char)
  | [] => [[]]
  | c :: cs =>
    if c = '/' then [] :: splitSlash cs
    else
      match splitSlash cs with
      | [] => [[c]]
      | s :: ss => (c :: s) :: ss

/-- One element of a path under `filepath.Clean`; `acc` holds the elements
kept so far, last one first. -/
def cleanStep (rooted : Bool) (acc : List (List Char)) (seg : List Char) : List (List Char) :=
  if seg = [] ∨ seg = ['.'] then acc
  else if seg = ['.', '.'] then
    match acc with
    | top :: rest => if top = ['.', '.'] then seg :: acc else rest
    | [] => if rooted then [] else [seg]
  else seg :: acc

/-- Library function `filepath.Clean` on characters. -/
def cleanChars (p : List Char) : List Char :=
  let rooted := p.head? = some '/'
  let kept := ((splitSlash p).foldl (cleanStep rooted) []).reverse
  let body := List.intercalate ['/'] kept
  if rooted then '/' :: body
  else if body = [] then ['.'] else body

/-- Library function `filepath.Clean`. -/
def filepathClean (p : String) : String := ⟨cleanChars p.data⟩

/-- Library function `filepath.Dir`: the cleaned text up to and including the
last separator. -/
def filepathDir (p : String) : String :=
  ⟨cleanChars (p.data.reverse.dropWhile (fun c => c != '/')).reverse⟩

/-- State of the disk: regular files with their content, directories, and the
paths at which every system call fails with an error other than "does not
exist" (permission denied, input/output error). -/
structure FS where
  files : List (String × String)
  dirs : List String
  faulty : List String
deriving DecidableEq, Repr

inductive StatResult where
  | found
  | notExist
  | failed
deriving DecidableEq, Repr

/-- A path made of `..` elements only; like `.` and `/` it always names a
directory. -/
def onlyUp (q : String) : Bool :=
  (splitSlash q.data).all (fun seg => seg == ['.', '.'])

def FS.isDir (fs : FS) (q : String) : Bool :=
  q == "." || q == "/" || onlyUp q || fs.dirs.contains q

def FS.isFile (fs : FS) (q : String) : Bool :=
  fs.files.any (fun e => e.1 == q)

/-- Content of the regular file at a path, if there is one. -/
def FS.content (fs : FS) (p : String) : Option String :=
  (fs.files.find? (fun e => e.1 == filepathClean p)).map (fun e => e.2)

/-- The directory itself and every directory above it, outermost first. -/
def ancestors (q : String) : List String :=
  (((splitSlash q.data).inits.map (fun segs => String.mk (List.intercalate ['/'] segs))).filter
    (fun a => a != "" && a != "."))

/-- Resolution of the directories above a path, outermost first: the first one
that is not a directory decides (`failed` when it is a regular file, the error
ENOTDIR, or a faulty path; `notExist` when nothing is there, the error ENOENT);
`none` when all of them are directories. -/
def statAbove (fs : FS) : List String → Option StatResult
  | [] => none
  | a :: rest =>
    if fs.faulty.contains a || fs.isFile a then some .failed
    else if !fs.isDir a then some .notExist
    else statAbove fs rest

/-- System call `os.Stat`, reduced to the three cases the program tells apart:
no error (`found`), an error for which `os.IsNotExist` holds (`notExist`), any
other error (`failed`). The empty path does not exist; a path below a regular
file, or a regular file named with a trailing separator, fails with ENOTDIR. -/
def osStat (fs : FS) (p : String) : StatResult :=
  if p = "" then .notExist
  else
    let q := filepathClean p
    match statAbove fs (ancestors q).dropLast with
    | some r => r
    | none =>
      if fs.faulty.contains q then .failed
      else if fs.isDir q then .found
      else if fs.isFile q then (if p.data.getLast? = some '/' then .failed else .found)
      else .notExist

/-- System call `os.MkdirAll`; `none` is an error. -/
def osMkdirAll (fs : FS) (p : String) : Option FS :=
  let todo := ancestors (filepathClean p)
  if p = "" || todo.any (fun a => fs.faulty.contains a || fs.isFile a) then none
  else some { fs with dirs := (todo.filter (fun a => !fs.isDir a)) ++ fs.dirs }

/-- System call `os.Create`: creates the file or truncates the existing one;
`none` is an error. -/
def osCreate (fs : FS) (p : String) : Option FS :=
  let q := filepathClean p
  if p = "" || fs.faulty.contains q || fs.isDir q || !fs.isDir (filepathDir q) then none
  else some { fs with files := (q, "") :: fs.files.filter (fun e => e.1 != q) }

/-- Method `Write` on the file opened at `p`. -/
def osWrite (fs : FS) (p : String) (b : String) : FS :=
  let q := filepathClean p
  { fs with files := fs.files.map (fun e => if e.1 == q then (e.1, e.2 ++ b) else e) }

/-! ## The world and its environment -/

/-- Answer of the remote service to one request. -/
inductive Reply where
  | fail (err : String)
  | resp (code : Nat) (status : String) (body : Except String String)

/-- What the pause channel holds when the traversal looks at it. -/
inductive PauseSignal where
  | idle
  | toggled
  | stuck
deriving DecidableEq, Repr

/-- Everything outside the program's control.

* `newRequestErr uri`: the error of `http.NewRequest`, if the URI is rejected;
* `net k uri sid`: the answer to the request sent after `k` earlier ones;
* `decodeFiles`, `decodeExport`, `decodeTask`: `json.Unmarshal` into a
  `FileResponse` (`none` is a decoding error), an `ExportResponse` and a
  `TaskResponse` (the value left in the struct, since the program goes on
  after an error there);
* `pause k`: at the check made after `k` earlier ones, `idle` when no signal is
  waiting, `toggled` when a pause signal is waiting and the resume signal
  arrives later, `stuck` when a pause signal is waiting and no resume signal
  ever arrives. -/
structure Env where
  newRequestErr : String → Option String
  net : Nat → String → String → Reply
  decodeFiles : String → Option (List FileInfo)
  decodeExport : String → ExportResponse
  decodeTask : String → TaskResponse
  pause : Nat → PauseSignal

/-- Mutable surroundings of the program. `exported` and `downloaded` are a
history of the calls of `HttpExport` and `diskDownload` that returned; nothing
reads them. -/
structure World where
  fs : FS
  sent : List String
  log : List String
  checks : Nat
  exported : List String
  downloaded : List FileInfo
deriving DecidableEq, Repr

/-- Method `Logger.Log`. -/
def World.logLine (w : World) (line : String) : World :=
  { w with log := w.log ++ [line] }

/-! ## Transport (shimo.go, lines 193-245) -/

def defaultstr : String := "http request error occur"

/-- Bytes and error returned by `httpRequest`. -/
abbrev HttpResult := String × Option String

/-- Tail of `httpRequest` once the status is not a 429 to be retried. -/
def httpFinish (code : Nat) (status : String) (body : Except String String) : HttpResult :=
  if code ≠ 200 then (defaultstr, some ("status error: " ++ status))
  else
    match body with
    | .error e => (defaultstr, some e)
    | .ok b => (b, none)

/-- Body of `httpRequest` with the retry counter as a natural number. -/
def httpRequestN (env : Env) (uri shimoSid : String) : Nat → World → HttpResult × World
  | retry, w =>
    match env.newRequestErr uri with
    | some e => ((defaultstr, some e), w)
    | none =>
      let w1 := { w with sent := w.sent ++ [uri] }
      match env.net w.sent.length uri shimoSid with
      | .fail e => ((defaultstr, some e), w1)
      | .resp code status body =>
        match retry with
        | n + 1 =>
          if code = 429 then httpRequestN env uri shimoSid n w1
          else (httpFinish code status body, w1)
        | 0 => (httpFinish code status body, w1)

/-- Go `httpRequest`. The counter `retry` is only compared with 0 and
decremented while positive, so the recursion runs on `retry.toNat`. -/
def httpRequest (env : Env) (uri : String) (retry : Int) (shimoSid : String) (_sleepTime : Nat)
    (w : World) : HttpResult × World :=
  httpRequestN env uri shimoSid retry.toNat w

/-! ## Discovery (shimo.go, lines 247-296 and 432-450) -/

/-- Go `createDirInfo`. -/
def createDirInfo (path : String) (fileInfo : FileInfo) : DirInfo :=
  .mk { Path := path ++ "/" ++ fileInfo.Title, Id := fileInfo.Id, Title := fileInfo.Title,
        Kind := fileInfo.Kind, TaskId := "" } none none

/-- Go `createFileInfo`. -/
def createFileInfo (path : String) (fileInfo : FileInfo) : FileInfo :=
  { Path := path ++ "/" ++ fileInfo.Title, Id := fileInfo.Id, Title := fileInfo.Title,
    Kind := fileInfo.Kind, TaskId := "" }

/-- Go `append` of one element to a slice. -/
def sliceAppend {α : Type} (s : Option (List α)) (a : α) : Option (List α) :=
  some (s.getD [] ++ [a])

/-- One turn of the loop of `fetchDirectoryInfo`. -/
def sortEntry (path : String)
    (acc : Option (List DirInfo) × Option (List FileInfo)) (fileInfo : FileInfo) :
    Option (List DirInfo) × Option (List FileInfo) :=
  if fileInfo.Kind = "folder" then (sliceAppend acc.1 (createDirInfo path fileInfo), acc.2)
  else if fileInfo.Kind = "newdoc" then (acc.1, sliceAppend acc.2 (createFileInfo path fileInfo))
  else acc

/-- Go `fetchDirectoryInfo`; returns the two slices behind `d` and `f`. -/
def fetchDirectoryInfo (env : Env) (s : Shimo) (path id : String)
    (d : Option (List DirInfo)) (f : Option (List FileInfo)) (w : World) :
    Outcome ((Option (List DirInfo) × Option (List FileInfo)) × World) :=
  let uri := if id ≠ "" then listUri id else smUrl.Root
  match httpRequest env uri s.HttpStrategy.Retry2 s.UserCfg.ShimoSid s.HttpStrategy.SleepTime w with
  | ((_, some err), _) => .panic err
  | ((b, none), w1) =>
    match env.decodeFiles b with
    | none => .panic "json: cannot unmarshal"
    | some result => .ok (result.foldl (sortEntry path) (d, f), w1)

/-- Loop `for _, file := range *files` of `BuildStructureTree`. -/
def countFiles : List FileInfo → Shimo → World → Shimo × World
  | [], s, w => (s, w)
  | file :: rest, s, w =>
    countFiles rest { s with FileCount := s.FileCount + 1 } (w.logLine ("- [文件]: " ++ file.Path))

/-- Loop `for i := range *dirs` of `BuildStructureTree`, over the call `build`
made on each element in place. -/
def buildDirs (build : Shimo → DirInfo → World → Outcome (Shimo × DirInfo × World)) :
    List DirInfo → Shimo → World → Outcome (Shimo × List DirInfo × World)
  | [], s, w => .ok (s, [], w)
  | d :: ds, s, w =>
    (build s d w).bind fun r =>
      (buildDirs build ds r.1 r.2.2).bind fun rs =>
        .ok (rs.1, r.2.1 :: rs.2.1, rs.2.2)

/-- Go `BuildStructureTree`; returns the receiver, the tree and the world as
the call leaves them. The fuel bounds the depth of the recursion. -/
def BuildStructureTree (env : Env) : Nat → Shimo → DirInfo → World →
    Outcome (Shimo × DirInfo × World)
  | 0, _, _, _ => .hang
  | fuel + 1, s, tree, w =>
    (fetchDirectoryInfo env s tree.info.Path tree.info.Id (some []) (some []) w).bind fun r =>
      let dirs := r.1.1
      let files := r.1.2
      let sw := countFiles (files.getD []) s r.2
      (buildDirs (fun s1 d w1 => BuildStructureTree env fuel s1 d w1) (dirs.getD []) sw.1 sw.2).bind
        fun rs => .ok (rs.1, .mk tree.info (some (dirs.map fun _ => rs.2.1)) (some files), rs.2.2)

/-! ## Export and download (shimo.go, lines 298-414) -/

/-- Go `duplicateTitle` on the disk `fs`; the fuel bounds the number of
suffixes tried. -/
def duplicateTitle (fs : FS) : Nat → String → Outcome String
  | 0, _ => .hang
  | fuel + 1, path =>
    match osStat fs path with
    | .found => duplicateTitle fs fuel (path ++ "(1)")
    | .notExist => .ok path
    | .failed => .panic "duplicateTitle error "

/-- Go `RemoveBlank`: `strings.ReplaceAll(path, " ", "")`. -/
def RemoveBlank (path : String) : String :=
  ⟨path.data.filter (fun c => c != ' ')⟩

/-- Go `HttpExport`. -/
def HttpExport (env : Env) (s : Shimo) (id : String) (w : World) : Outcome (String × World) :=
  let w1 := w.logLine ("  [获取导出ID]: " ++ id)
  let uri := exportUri id s.UserCfg.ExportType
  match httpRequest env uri s.HttpStrategy.Retry10 s.UserCfg.ShimoSid s.HttpStrategy.SleepTime w1 with
  | ((_, some err), _) => .panic err
  | ((b, none), w2) =>
    let result := env.decodeExport b
    if result.TaskId = "" then .panic "TaskId empty"
    else
      let w3 := w2.logLine ("    [导出ID]: " ++ result.TaskId)
      .ok (result.TaskId, { w3 with exported := w3.exported ++ [id] })

/-- Go `HttpLinkQuery`; the fuel bounds the number of polls. -/
def HttpLinkQuery (env : Env) (s : Shimo) : Nat → String → World → Outcome (String × World)
  | 0, _, _ => .hang
  | fuel + 1, tid, w =>
    let uri := queryUri tid
    match httpRequest env uri s.HttpStrategy.Retry20 s.UserCfg.ShimoSid s.HttpStrategy.SleepTime w with
    | ((_, some err), _) => .panic err
    | ((b, none), w1) =>
      let result := env.decodeTask b
      let w2 := w1.logLine ("    [当前导出进度]: " ++ toString result.Data.Progress)
      if result.Status ≠ 0 ∨ result.Data.DownloadUrl = "" then HttpLinkQuery env s fuel tid w2
      else .ok (result.Data.DownloadUrl, w2.logLine ("    [下载地址]: " ++ result.Data.DownloadUrl))

/-- Go `HttpDownload`. -/
def HttpDownload (env : Env) (s : Shimo) (uri : String) (w : World) : String × World :=
  let r := httpRequest env uri s.HttpStrategy.Retry2 s.UserCfg.ShimoSid s.HttpStrategy.SleepTime w
  (r.1.1, r.2)

/-- Go `diskDownload`. -/
def diskDownload (env : Env) (s : Shimo) (fuel : Nat) (f : FileInfo) (w : World) : Outcome World :=
  (HttpLinkQuery env s fuel f.TaskId w).bind fun q =>
    let dl := q.1
    let w1 := q.2.logLine ("  [开始下载任务]: " ++ f.TaskId)
    let bw := HttpDownload env s dl w1
    let b := bw.1
    let w2 := bw.2
    let dir := filepathDir f.Path
    let dir := if s.UserCfg.RemoveBlank then RemoveBlank dir else dir
    match osMkdirAll w2.fs dir with
    | none => .panic "mkdir"
    | some fs1 =>
      (duplicateTitle fs1 fuel f.Path).bind fun path =>
        let path := if s.UserCfg.RemoveBlank then RemoveBlank path else path
        let target := path ++ "." ++ s.UserCfg.ExportType
        let w3 : World :=
          match osCreate fs1 target with
          | none => { w2 with fs := fs1 }
          | some fs2 =>
            { w2 with fs := osWrite fs2 target b }.logLine ("    [创建文件成功]: " ++ target)
        let w4 := (w3.logLine ("    [文件写入成功]: " ++ target)).logLine ("    [下载成功]: " ++ target)
        .ok { w4 with downloaded := w4.downloaded ++ [f] }

/-! ## Traversal (shimo.go, lines 452-489) -/

/-- The `select` on `PauseChan` at the head of `TraverseTree`. -/
def pauseCheck (env : Env) (w : World) : Outcome World :=
  let w1 := { w with checks := w.checks + 1 }
  match env.pause w.checks with
  | .idle => .ok w1
  | .toggled => .ok ((w1.logLine "------> [下载暂停] <------").logLine "------> [下载继续] <------")
  | .stuck => .hang

/-- Loop `for i := range fl` of `TraverseTree`; returns the slice with the task
identifiers written into it. -/
def downloadFiles (env : Env) (s : Shimo) (fuel : Nat) :
    List FileInfo → World → Outcome (List FileInfo × World)
  | [], w => .ok ([], w)
  | f :: rest, w =>
    let w1 := w.logLine ("[开始下载]: " ++ f.Title ++ " 类型: " ++ f.Kind)
    (HttpExport env s f.Id w1).bind fun e =>
      let f1 := { f with TaskId := e.1 }
      (diskDownload env s fuel f1 e.2).bind fun w2 =>
        let w3 := (w2.logLine ("[下载完成]: " ++ f1.Title ++ " 地址：" ++ f1.Path ++ "\n")).logLine
          "-------------------------------"
        (downloadFiles env s fuel rest w3).bind fun r => .ok (f1 :: r.1, r.2)

/-- Value of `fmt.Sprintf(node.Id, "dir nil")` for an identifier without
formatting verbs. -/
def leafLine (id : String) : String := id ++ "%!(EXTRA string=dir nil)"

/-- First half of `TraverseTree`: the block guarded by `node.Files != nil`. -/
def traverseFiles (env : Env) (s : Shimo) (fuel : Nat)
    (files : Option (Option (List FileInfo))) (w : World) :
    Outcome (Option (Option (List FileInfo)) × World) :=
  match files with
  | none => .ok (none, w)
  | some fl =>
    (pauseCheck env w).bind fun w1 =>
      (downloadFiles env s fuel (fl.getD []) w1).bind fun r =>
        .ok (some (fl.map fun _ => r.1), r.2)

mutual
/-- Go `TraverseTree`; returns the tree and the world as the call leaves
them. -/
def TraverseTree (env : Env) (s : Shimo) (fuel : Nat) : DirInfo → World → Outcome (DirInfo × World)
  | .mk _ none files, w =>
    (traverseFiles env s fuel files w).bind fun _ =>
      .panic "runtime error: invalid memory address or nil pointer dereference"
  | .mk info (some none) files, w =>
    (traverseFiles env s fuel files w).bind fun r =>
      .ok (.mk info (some none) r.1, r.2.logLine (leafLine info.Id))
  | .mk info (some (some dl)) files, w =>
    (traverseFiles env s fuel files w).bind fun r =>
      (traverseDirs env s fuel dl r.2).bind fun rs =>
        .ok (.mk info (some (some rs.1)) r.1, rs.2)
/-- Loop `for i := range dl` of `TraverseTree`. -/
def traverseDirs (env : Env) (s : Shimo) (fuel : Nat) :
    List DirInfo → World → Outcome (List DirInfo × World)
  | [], w => .ok ([], w)
  | d :: ds, w =>
    (TraverseTree env s fuel d w).bind fun r =>
      (traverseDirs env s fuel ds r.2).bind fun rs => .ok (r.1 :: rs.1, rs.2)
end

/-- Go `CheckShimoSid`; `none` is the nil error. -/
def CheckShimoSid (env : Env) (s : Shimo) (w : World) : Option String × World :=
  match httpRequest env smUrl.Root s.HttpStrategy.Retry2 s.UserCfg.ShimoSid
      s.HttpStrategy.SleepTime w with
  | ((_, some err), w1) => (some err, w1)
  | ((resp, none), w1) =>
    if resp = defaultstr then (some "invalid shimoSid", w1) else (none, w1)

/-! ## Vocabulary of the properties -/

/-- The suffix `(1)` written `k` times. -/
def ones : Nat → String
  | 0 => ""
  | k + 1 => "(1)" ++ ones k

/-- The ordinal suffix `(n)`. -/
def ordinal (n : Nat) : String := "(" ++ toString n ++ ")"

/-- Whether a piece of the program returned. -/
def Outcome.isOk {α : Type} : Outcome α → Bool
  | .ok _ => true
  | _ => false

/-- An entry without its export task. -/
def FileInfo.unstamped (f : FileInfo) : FileInfo := { f with TaskId := "" }

/-- The documents behind the field `Files` (none behind a nil pointer or in a
nil slice). -/
def filesOf : Option (Option (List FileInfo)) → List FileInfo
  | none => []
  | some none => []
  | some (some l) => l

mutual
/-- Pre-order, files before subfolders: the documents of the folder in list
order, then those of each child folder in list order. -/
def docOrder : DirInfo → List FileInfo
  | .mk _ none files => filesOf files
  | .mk _ (some none) files => filesOf files
  | .mk _ (some (some dl)) files => filesOf files ++ docOrderList dl
/-- The documents of a list of folders, folder after folder. -/
def docOrderList : List DirInfo → List FileInfo
  | [] => []
  | d :: ds => docOrder d ++ docOrderList ds
end

/-- The surroundings of `env` in which no pause signal is ever sent. -/
def quiet (env : Env) : Env := { env with pause := fun _ => .idle }

/-- Two worlds with the same disk, the same requests sent, the same exports and
the same downloads, in the same order; the log and the number of looks at the
pause channel may differ. -/
def World.sameEffects (w v : World) : Prop :=
  w.fs = v.fs ∧ w.sent = v.sent ∧ w.exported = v.exported ∧ w.downloaded = v.downloaded

/-- Two runs end the same way: both return, with results related by `R`, or
both panic with the same message, or both hang. -/
inductive Outcome.agree {α β : Type} (R : α → β → Prop) : Outcome α → Outcome β → Prop
  | ok {a : α} {b : β} (h : R a b) : Outcome.agree R (.ok a) (.ok b)
  | panic (m : String) : Outcome.agree R (.panic m) (.panic m)
  | hang : Outcome.agree R .hang .hang

mutual
/-- Number of document entries of a tree: the sum, over all its folders, of
the length of the document list. -/
def countDocs : DirInfo → Nat
  | .mk _ none files => (filesOf files).length
  | .mk _ (some none) files => (filesOf files).length
  | .mk _ (some (some dl)) files => (filesOf files).length + countDocsList dl
/-- Number of document entries of a list of trees. -/
def countDocsList : List DirInfo → Nat
  | [] => 0
  | d :: ds => countDocs d + countDocsList ds
end

/-- The path that the titles of `chain`, from the root's child down, give
under the root path `P`. -/
def chainPath (P : String) (chain : List String) : String :=
  chain.foldl (fun acc title => acc ++ "/" ++ title) P

mutual
/-- Every folder node and document entry below a node, as the chain of titles
that leads to it from the node's child and the local path it carries. -/
def entries : DirInfo → List (List String × String)
  | .mk _ none files => (filesOf files).map (fun f => ([f.Title], f.Path))
  | .mk _ (some none) files => (filesOf files).map (fun f => ([f.Title], f.Path))
  | .mk _ (some (some dl)) files =>
    (filesOf files).map (fun f => ([f.Title], f.Path)) ++ entriesList dl
/-- The folder nodes of a list, each followed by what is below it. -/
def entriesList : List DirInfo → List (List String × String)
  | [] => []
  | d :: ds =>
    ([d.info.Title], d.info.Path) ::
      ((entries d).map (fun e => (d.info.Title :: e.1, e.2)) ++ entriesList ds)
end

mutual
/-- Every entry's path is its parent's path, `/` and its own title. -/
def wellPathed : DirInfo → Prop
  | .mk info none files => ∀ f ∈ filesOf files, f.Path = info.Path ++ "/" ++ f.Title
  | .mk info (some none) files => ∀ f ∈ filesOf files, f.Path = info.Path ++ "/" ++ f.Title
  | .mk info (some (some dl)) files =>
    (∀ f ∈ filesOf files, f.Path = info.Path ++ "/" ++ f.Title) ∧ wellPathedList info.Path dl
/-- The folders of a list under the parent path `P`. -/
def wellPathedList (P : String) : List DirInfo → Prop
  | [] => True
  | d :: ds => d.info.Path = P ++ "/" ++ d.info.Title ∧ wellPathed d ∧ wellPathedList P ds
end

/-- The remote hierarchy below the folder `id` is finite and acyclic, of depth
less than `n`, and is served reliably: whenever the folder is listed the
listing arrives and decodes, and the same holds, with `n - 1`, for every
folder it names. -/
def FiniteBelow (env : Env) (s : Shimo) : Nat → String → Prop
  | 0, _ => False
  | n + 1, id =>
    ∀ (c : Int) (path : String) (w : World),
      ∃ r, fetchDirectoryInfo env { s with FileCount := c } path id (some []) (some []) w = .ok r ∧
        ∀ d ∈ r.1.1.getD [], FiniteBelow env s n d.info.Id

/-- What one call of `BuildStructureTree` guarantees on return. -/
def BuildPost (s : Shimo) (tree : DirInfo) (r : Shimo × DirInfo × World) : Prop :=
  r.1.FileCount = s.FileCount + countDocs r.2.1 ∧ r.1.UserCfg = s.UserCfg ∧
    r.1.HttpStrategy = s.HttpStrategy ∧ r.2.1.info = tree.info ∧ wellPathed r.2.1


mutual
/-- Every node of the tree has its two collections recorded: `Dirs` points to
a slice that is not nil and `Files` points to a slice that is not nil. -/
def recorded : DirInfo → Prop
  | .mk _ none _ => False
  | .mk _ (some none) _ => False
  | .mk _ (some (some dl)) files => (∃ fl, files = some (some fl)) ∧ recordedList dl
/-- Every tree of the list is recorded. -/
def recordedList : List DirInfo → Prop
  | [] => True
  | d :: ds => recorded d ∧ recordedList ds
end
/-! ## Concrete surroundings used to run the program -/

def emptyFS : FS := { files := [], dirs := [], faulty := [] }

def emptyWorld : World :=
  { fs := emptyFS, sent := [], log := [], checks := 0, exported := [], downloaded := [] }

/-- A remote service that answers every request with status 429. -/
def busyEnv : Env where
  newRequestErr := fun _ => none
  net := fun _ _ _ => .resp 429 "429 Too Many Requests" (.ok "")
  decodeFiles := fun _ => none
  decodeExport := fun _ => { Status := 0, Message := "", TaskId := "" }
  decodeTask := fun _ =>
    { Status := 0, Code := 0, Data := { Progress := 0, DownloadUrl := "", FileSize := 0, CostTime := 0 } }
  pause := fun _ => .idle

/-- A disk on which `download/a` and `download/a(1)` are taken. -/
def twoTakenFS : FS :=
  { files := [("download/a", "first"), ("download/a(1)", "second")], dirs := ["download"], faulty := [] }

/-- A remote entry as the listing decoder returns it. -/
def entry (kind id title : String) : FileInfo :=
  { Path := "", Id := id, Title := title, Kind := kind, TaskId := "" }

/-- A well-behaved remote service: every request is answered with status 200
and a body that repeats the requested URI; the decoders read the listing of a
folder from the table `listing`, the task identifier `T:` followed by the body
of an export answer, and the finished download link `D:` followed by the body
of a progress answer. No pause signal is ever sent. -/
def echoEnv (listing : String → Option (List FileInfo)) : Env where
  newRequestErr := fun _ => none
  net := fun _ uri _ => .resp 200 "200 OK" (.ok uri)
  decodeFiles := listing
  decodeExport := fun b => { Status := 0, Message := "", TaskId := "T:" ++ b }
  decodeTask := fun b =>
    { Status := 0, Code := 0,
      Data := { Progress := 100, DownloadUrl := "D:" ++ b, FileSize := 0, CostTime := 0 } }
  pause := fun _ => .idle

/-- The service of `echoEnv`, except that every download link (a URI that
starts with `D:`) is answered with status 500. -/
def brokenLinkEnv (listing : String → Option (List FileInfo)) : Env :=
  { echoEnv listing with
    net := fun _ uri _ =>
      if uri.data.take 2 = ['D', ':'] then .resp 500 "500 Internal Server Error" (.ok "oops")
      else .resp 200 "200 OK" (.ok uri) }

/-- A workspace without entries. -/
def noListing (_ : String) : Option (List FileInfo) := some []

/-- The configuration of `NewDefaultShimo` with root path `download`. -/
def demoShimo : Shimo :=
  { NewDefaultShimo with UserCfg := { NewDefaultShimo.UserCfg with RootPath := "download" } }

/-- The configuration of `demoShimo` with whitespace removal switched on. -/
def blankShimo : Shimo :=
  { demoShimo with UserCfg := { demoShimo.UserCfg with RemoveBlank := true } }

/-- A document `a` of the root folder whose export task is `t1`. -/
def docA : FileInfo :=
  { Path := "download/a", Id := "ida", Title := "a", Kind := "newdoc", TaskId := "t1" }

/-- A world whose disk already holds `download/a.md`. -/
def takenWorld : World :=
  { emptyWorld with
    fs := { files := [("download/a.md", "old")], dirs := ["download"], faulty := [] } }

/-- A world whose disk holds the root directory only. -/
def freshWorld : World :=
  { emptyWorld with fs := { files := [], dirs := ["download"], faulty := [] } }

/-- What a test looks at on the disk: the regular files with their content. -/
def World.files (w : World) : List (String × String) := w.fs.files

/-- A root folder with two documents that are both titled `a`. -/
def twinListing (body : String) : Option (List FileInfo) :=
  if body = smUrl.Root then some [entry "newdoc" "id1" "a", entry "newdoc" "id2" "a"] else none

/-- The root that `main` hands to `BuildStructureTree`. -/
def rootDir (rootpath : String) : DirInfo :=
  .mk { Path := rootpath, Id := "", Title := "", Kind := "root", TaskId := "" } none none

/-- The whole run of `main` after the configuration is read: discovery, then
traversal. -/
def run (env : Env) (s : Shimo) (fuel : Nat) (w : World) : Outcome (DirInfo × World) :=
  (BuildStructureTree env fuel s (rootDir s.UserCfg.RootPath) w).bind fun r =>
    TraverseTree env r.1 fuel r.2.1 r.2.2

/-- The document `My Doc` of the folder `A B` of the root `download`, with the
path discovery gives it and the export task `t1`. -/
def myDoc : FileInfo :=
  { createFileInfo (createDirInfo "download" (entry "folder" "idAB" "A B")).info.Path
      (entry "newdoc" "idmy" "My Doc") with TaskId := "t1" }

/-- The hierarchy `root{docs:[a,b], folders:[X{docs:[c]}, Y{}]}`; the entry of
kind `sheet` is of a kind the program does not export. -/
def abcListing (body : String) : Option (List FileInfo) :=
  if body = smUrl.Root then
    some [entry "newdoc" "ida" "a", entry "folder" "idX" "X", entry "sheet" "ids" "s",
      entry "newdoc" "idb" "b", entry "folder" "idY" "Y"]
  else if body = listUri "idX" then some [entry "newdoc" "idc" "c"]
  else if body = listUri "idY" then some []
  else none

/-- The disk of `freshWorld` once `download/AB` is made. -/
def madeFS : FS := { files := [], dirs := ["download/AB", "download"], faulty := [] }

/-- The surroundings of `echoEnv` in which a pause signal is waiting at the
second look at the channel and the resume signal follows. -/
def pausingEnv (listing : String → Option (List FileInfo)) : Env :=
  { echoEnv listing with pause := fun k => if k = 1 then .toggled else .idle }

/-- The tree discovery builds for `abcListing` under the root `download`. -/
def abcTree : DirInfo :=
  .mk { Path := "download", Id := "", Title := "", Kind := "root", TaskId := "" }
    (some (some [
      .mk { Path := "download/X", Id := "idX", Title := "X", Kind := "folder", TaskId := "" }
        (some (some []))
        (some (some [{ Path := "download/X/c", Id := "idc", Title := "c", Kind := "newdoc", TaskId := "" }])),
      .mk { Path := "download/Y", Id := "idY", Title := "Y", Kind := "folder", TaskId := "" }
        (some (some [])) (some (some []))]))
    (some (some [
      { Path := "download/a", Id := "ida", Title := "a", Kind := "newdoc", TaskId := "" },
      { Path := "download/b", Id := "idb", Title := "b", Kind := "newdoc", TaskId := "" }]))

/-- A world whose disk holds no regular file, and the directory
`download/A B/My Doc` with the directories above it. -/
def dirTakenWorld : World :=
  { emptyWorld with
    fs := { files := [], dirs := ["download/A B/My Doc", "download/A B", "download"],
            faulty := [] } }

/-- A folder node that holds the document `a` and whose `Dirs` points to the
slice `dirs`. -/
def folderX (dirs : Option (List DirInfo)) : DirInfo :=
  .mk { Path := "download/X", Id := "idX", Title := "X", Kind := "folder", TaskId := "" }
    (some dirs)
    (some (some [{ Path := "download/X/a", Id := "ida", Title := "a", Kind := "newdoc",
                   TaskId := "" }]))
/-! # Properties

## Auxiliary facts -/

theorem Outcome.bind_ok {α β : Type} (a : α) (f : α → Outcome β) :
    (Outcome.ok a).bind f = f a := rfl

theorem Outcome.bind_eq_ok {α β : Type} {o : Outcome α} {f : α → Outcome β} {b : β}
    (h : o.bind f = .ok b) : ∃ a, o = .ok a ∧ f a = .ok b := by
  cases o with
  | ok a => exact ⟨a, rfl, h⟩
  | panic m => simp [Outcome.bind] at h
  | hang => simp [Outcome.bind] at h

theorem logLine_exported (w : World) (l : String) : (w.logLine l).exported = w.exported := rfl
theorem logLine_downloaded (w : World) (l : String) : (w.logLine l).downloaded = w.downloaded := rfl

/-- A request changes nothing but the list of requests sent. -/
theorem httpRequestN_frame (env : Env) (uri sid : String) :
    ∀ (n : Nat) (w : World), ∃ l, (httpRequestN env uri sid n w).2 = { w with sent := w.sent ++ l } := by
  intro n
  induction n with
  | zero =>
    intro w
    rw [httpRequestN]
    cases env.newRequestErr uri with
    | some e => exact ⟨[], by simp⟩
    | none =>
      cases env.net w.sent.length uri sid with
      | fail e => exact ⟨[uri], rfl⟩
      | resp code status body => exact ⟨[uri], rfl⟩
  | succ n ih =>
    intro w
    rw [httpRequestN]
    cases env.newRequestErr uri with
    | some e => exact ⟨[], by simp⟩
    | none =>
      cases env.net w.sent.length uri sid with
      | fail e => exact ⟨[uri], rfl⟩
      | resp code status body =>
        by_cases hc : code = 429
        · obtain ⟨l, hl⟩ := ih { w with sent := w.sent ++ [uri] }
          refine ⟨uri :: l, ?_⟩
          simp only [hc, if_true]
          rw [hl]
          simp
        · exact ⟨[uri], by simp [hc]⟩

theorem httpRequest_frame (env : Env) (uri : String) (retry : Int) (sid : String) (t : Nat)
    (w : World) : ∃ l, (httpRequest env uri retry sid t w).2 = { w with sent := w.sent ++ l } :=
  httpRequestN_frame env uri sid retry.toNat w

theorem HttpLinkQuery_frame (env : Env) (s : Shimo) :
    ∀ (fuel : Nat) (tid : String) (w : World) (q : String × World),
      HttpLinkQuery env s fuel tid w = .ok q →
      q.2.fs = w.fs ∧ q.2.exported = w.exported ∧ q.2.downloaded = w.downloaded ∧
        q.2.checks = w.checks := by
  intro fuel
  induction fuel with
  | zero => intro tid w q h; simp [HttpLinkQuery] at h
  | succ fuel ih =>
    intro tid w q h
    rw [HttpLinkQuery] at h
    obtain ⟨l, hl⟩ := httpRequest_frame env (queryUri tid) s.HttpStrategy.Retry20
      s.UserCfg.ShimoSid s.HttpStrategy.SleepTime w
    generalize httpRequest env (queryUri tid) s.HttpStrategy.Retry20
      s.UserCfg.ShimoSid s.HttpStrategy.SleepTime w = r at h hl
    obtain ⟨⟨b, e⟩, w1⟩ := r
    simp only at hl
    subst hl
    cases e with
    | some err => simp at h
    | none =>
      simp only at h
      split at h
      · have := ih _ _ _ h
        simpa [World.logLine] using this
      · cases h
        simp [World.logLine]

theorem Outcome.exists_of_isOk {α : Type} {o : Outcome α} (h : o.isOk = true) :
    ∃ a, o = .ok a := by
  cases o with
  | ok a => exact ⟨a, rfl⟩
  | panic m => simp [Outcome.isOk] at h
  | hang => simp [Outcome.isOk] at h

theorem HttpDownload_frame (env : Env) (s : Shimo) (uri : String) (w : World) :
    ∃ l, (HttpDownload env s uri w).2 = { w with sent := w.sent ++ l } :=
  httpRequest_frame env uri _ _ _ w


theorem Outcome.map_of_eq_ok {α β : Type} {o : Outcome α} {a : α} {f : α → β} {b : β}
    (ho : o = .ok a) (h : o.map f = .ok b) : f a = b := by
  subst ho
  simpa [Outcome.map] using h

theorem osMkdirAll_files (fs fs1 : FS) (p : String) (h : osMkdirAll fs p = some fs1) :
    fs1.files = fs.files := by
  unfold osMkdirAll at h
  dsimp only at h
  split at h
  · simp at h
  · cases h
    rfl

theorem find_filter_ne (files : List (String × String)) (q k : String) (hk : k ≠ q) :
    (files.filter (fun e => e.1 != q)).find? (fun e => e.1 == k) =
      files.find? (fun e => e.1 == k) := by
  induction files with
  | nil => rfl
  | cons e rest ih =>
    rw [List.filter_cons]
    by_cases he : e.1 = q
    · have h1 : (e.1 != q) = false := by simp [he]
      have h2 : (e.1 == k) = false := by
        simpa using fun h : e.1 = k => hk (h.symm.trans he)
      rw [List.find?_cons]
      simp only [h1, h2, Bool.false_eq_true, if_false]
      exact ih
    · have h1 : (e.1 != q) = true := by simpa using he
      simp only [h1, if_true]
      rw [List.find?_cons, List.find?_cons, ih]

theorem find_map_ne (files : List (String × String)) (q k b : String) (hk : k ≠ q) :
    ((files.map (fun e => if e.1 == q then (e.1, e.2 ++ b) else e)).find?
        (fun e => e.1 == k)).map (fun e => e.2) =
      (files.find? (fun e => e.1 == k)).map (fun e => e.2) := by
  induction files with
  | nil => rfl
  | cons e rest ih =>
    rw [List.map_cons, List.find?_cons, List.find?_cons]
    by_cases he : e.1 = q
    · have h1 : (e.1 == q) = true := by simpa using he
      have h2 : (e.1 == k) = false := by
        simpa using fun h : e.1 = k => hk (h.symm.trans he)
      simp only [h1, h2, if_true]
      exact ih
    · have h1 : (e.1 == q) = false := by simpa using he
      simp only [h1, Bool.false_eq_true, if_false]
      cases h2 : (e.1 == k)
      · exact ih
      · rfl

/-- Creating a file leaves the content at every other path as it was. -/
theorem osCreate_content (fs fs2 : FS) (t p : String) (h : osCreate fs t = some fs2)
    (hp : filepathClean p ≠ filepathClean t) : fs2.content p = fs.content p := by
  unfold osCreate at h
  dsimp only at h
  split at h
  · simp at h
  · cases h
    unfold FS.content
    dsimp only
    have hqk : (filepathClean t == filepathClean p) = false := by simpa using fun h => hp h.symm
    rw [List.find?_cons]
    simp only [hqk]
    rw [find_filter_ne _ _ _ hp]

/-- Writing to a file leaves the content at every other path as it was. -/
theorem osWrite_content (fs : FS) (t b p : String)
    (hp : filepathClean p ≠ filepathClean t) : (osWrite fs t b).content p = fs.content p := by
  unfold osWrite FS.content
  dsimp only
  exact find_map_ne _ _ _ _ hp
/-! ## Transport -/

theorem httpRequestN_sustained_429 (env : Env) (uri sid status : String)
    (body : Except String String)
    (hreq : env.newRequestErr uri = none)
    (h429 : ∀ t, env.net t uri sid = .resp 429 status body) :
    ∀ (n : Nat) (w : World), httpRequestN env uri sid n w =
      ((defaultstr, some ("status error: " ++ status)),
        { w with sent := w.sent ++ List.replicate (n + 1) uri }) := by
  intro n
  induction n with
  | zero =>
    intro w
    simp [httpRequestN, hreq, h429, httpFinish]
  | succ n ih =>
    intro w
    rw [httpRequestN]
    simp only [hreq, h429, if_true]
    rw [ih]
    simp [List.replicate_succ]

/-- C6: against a service that answers every request for `uri` with status 429,
`httpRequest` with retry budget `n` sends exactly `n + 1` requests (the first
one and `n` retries), all for `uri`, and returns the status error; with budget
0 this is a single request. -/
theorem httpRequest_sustained_429 (env : Env) (uri sid status : String)
    (body : Except String String) (sleepTime : Nat) (n : Nat) (w : World)
    (hreq : env.newRequestErr uri = none)
    (h429 : ∀ t, env.net t uri sid = .resp 429 status body) :
    httpRequest env uri (n : Int) sid sleepTime w =
      ((defaultstr, some ("status error: " ++ status)),
        { w with sent := w.sent ++ List.replicate (n + 1) uri }) := by
  unfold httpRequest
  rw [Int.toNat_ofNat]
  exact httpRequestN_sustained_429 env uri sid status body hreq h429 n w

theorem httpRequest_sustained_429_witness :
    httpRequest busyEnv "u" 2 "sid" 10 emptyWorld =
        ((defaultstr, some "status error: 429 Too Many Requests"),
          { emptyWorld with sent := ["u", "u", "u"] }) ∧
      httpRequest busyEnv "u" 0 "sid" 10 emptyWorld =
        ((defaultstr, some "status error: 429 Too Many Requests"),
          { emptyWorld with sent := ["u"] }) :=
  ⟨httpRequest_sustained_429 busyEnv "u" "sid" "429 Too Many Requests" (.ok "") 10 2 emptyWorld
      rfl (fun _ => rfl),
    httpRequest_sustained_429 busyEnv "u" "sid" "429 Too Many Requests" (.ok "") 10 0 emptyWorld
      rfl (fun _ => rfl)⟩

/-! ## Collision resolution -/

/-- C2, as the program has it: when the stem and the stem followed by 1, 2, ...,
N - 1 copies of `(1)` are taken and the stem followed by N copies is free,
`duplicateTitle` returns the stem followed by N copies of `(1)`. -/
theorem duplicateTitle_ones (fs : FS) :
    ∀ (N fuel : Nat) (stem : String), N < fuel →
      (∀ k, k < N → osStat fs (stem ++ ones k) = .found) →
      osStat fs (stem ++ ones N) = .notExist →
      duplicateTitle fs fuel stem = .ok (stem ++ ones N) := by
  intro N
  induction N with
  | zero =>
    intro fuel stem hf _ hN
    obtain ⟨m, rfl⟩ : ∃ m, fuel = m + 1 := ⟨fuel - 1, by omega⟩
    have h0 : stem ++ ones 0 = stem := by simp [ones]
    rw [h0] at hN
    simp [duplicateTitle, hN, h0]
  | succ N ih =>
    intro fuel stem hf hlt hN
    obtain ⟨m, rfl⟩ : ∃ m, fuel = m + 1 := ⟨fuel - 1, by omega⟩
    have h0 : osStat fs stem = .found := by
      have := hlt 0 (by omega)
      simpa [ones] using this
    have hassoc : ∀ k, stem ++ ones (k + 1) = (stem ++ "(1)") ++ ones k := by
      intro k
      simp [ones, String.append_assoc]
    rw [duplicateTitle]
    simp only [h0]
    rw [ih m (stem ++ "(1)") (by omega)]
    · rw [hassoc]
    · intro k hk
      rw [← hassoc]
      exact hlt (k + 1) (by omega)
    · rw [← hassoc]
      exact hN

theorem duplicateTitle_ones_witness :
    duplicateTitle twoTakenFS 3 "download/a" = .ok ("download/a" ++ ones 2) :=
  duplicateTitle_ones twoTakenFS 2 3 "download/a" (by decide)
    (by intro k hk; interval_cases k <;> decide!) (by decide!)

/-- C2 fails for N = 2: with `download/a` and `download/a(1)` taken (and
nothing else), resolving `download/a` gives `download/a(1)(1)`, not
`download/a(2)`. -/
theorem duplicateTitle_third_collision :
    osStat twoTakenFS "download/a" = .found ∧
      osStat twoTakenFS ("download/a" ++ ordinal 1) = .found ∧
      osStat twoTakenFS ("download/a" ++ ordinal 2) = .notExist ∧
      duplicateTitle twoTakenFS 3 "download/a" = .ok "download/a(1)(1)" ∧
      duplicateTitle twoTakenFS 3 "download/a" ≠ .ok ("download/a" ++ ordinal 2) := by
  decide!


/-- C1 (failing input): `download/a.md` exists and holds `old`; downloading the
document whose local path is `download/a` creates `download/a.md` again and
replaces its content. The same happens within one run to two documents that
share a title: two downloads, one file, holding the second document. -/
theorem diskDownload_overwrites :
    takenWorld.fs.content "download/a.md" = some "old" ∧
      (diskDownload (echoEnv noListing) demoShimo 3 docA takenWorld).map World.files =
        .ok [("download/a.md",
          "D:https://shimo.im/lizard-api/office-gw/files/export/progress?taskId=t1")] ∧
      (run (echoEnv twinListing) demoShimo 3 emptyWorld).map
          (fun r => (r.2.downloaded.map FileInfo.Id, r.2.files.map Prod.fst)) =
        .ok (["id1", "id2"], ["download/a.md"]) := by
  decide!

/-! ## Download -/

/-- C4 (failing input): the download link is answered with status 500, yet
`diskDownload` returns normally, and `download/a.md` is created and holds the
placeholder bytes of `httpRequest`. -/
theorem diskDownload_failed_fetch :
    (HttpDownload (brokenLinkEnv noListing) demoShimo
        "D:https://shimo.im/lizard-api/office-gw/files/export/progress?taskId=t1" freshWorld).1 =
        defaultstr ∧
      freshWorld.files = [] ∧
      (diskDownload (brokenLinkEnv noListing) demoShimo 3 docA freshWorld).map
          (fun w => (w.files, w.downloaded)) =
        .ok ([("download/a.md", "http request error occur")], [docA]) := by
  decide!

/-- C5 fails as worded: whitespace removal is on, the disk holds no regular
file at all and nothing at `download/AB/MyDoc.md`, only the directory
`download/A B/My Doc`; `duplicateTitle` finds that directory at the entry's
local path, and the file is written to `download/AB/MyDoc(1).md`. -/
theorem diskDownload_directory_collision :
    blankShimo.UserCfg.RemoveBlank = true ∧
      myDoc.Path = "download/A B/My Doc" ∧
      dirTakenWorld.fs.files = [] ∧
      osStat dirTakenWorld.fs "download/AB/MyDoc.md" = .notExist ∧
      osStat dirTakenWorld.fs "download/AB/MyDoc" = .notExist ∧
      (diskDownload (echoEnv noListing) blankShimo 3 myDoc dirTakenWorld).map
          (fun w => w.files.map Prod.fst) = .ok ["download/AB/MyDoc(1).md"] ∧
      (diskDownload (echoEnv noListing) blankShimo 3 myDoc dirTakenWorld).map
          (fun w => w.files.map Prod.fst) ≠
        .ok [RemoveBlank myDoc.Path ++ "." ++ blankShimo.UserCfg.ExportType] := by
  decide!

/-- C5, as the program has it: with whitespace removal on, once the download
link is known and the directory is made, if `os.Stat` finds nothing at the
entry's local path itself (the path with its spaces and without the extension,
which is the one `duplicateTitle` looks at), then `diskDownload` returns, the
file it creates and writes is at the local path with every space removed,
followed by `.` and the export format, and the content at every other path is
what it was. -/
theorem diskDownload_removeBlank (env : Env) (s : Shimo) (fuel : Nat) (f : FileInfo)
    (w : World) (q : String × World) (fs1 : FS)
    (hflag : s.UserCfg.RemoveBlank = true)
    (hq : HttpLinkQuery env s fuel f.TaskId w = .ok q)
    (hmk : osMkdirAll w.fs (RemoveBlank (filepathDir f.Path)) = some fs1)
    (hfree : osStat fs1 f.Path = .notExist) :
    ∃ (w1 : World) (b : String),
      diskDownload env s fuel f w = .ok w1 ∧
        (w1.fs =
          match osCreate fs1 (RemoveBlank f.Path ++ "." ++ s.UserCfg.ExportType) with
          | none => fs1
          | some fs2 => osWrite fs2 (RemoveBlank f.Path ++ "." ++ s.UserCfg.ExportType) b) ∧
        ∀ p, filepathClean p ≠ filepathClean (RemoveBlank f.Path ++ "." ++ s.UserCfg.ExportType) →
          w1.fs.content p = w.fs.content p := by
  obtain ⟨m, rfl⟩ : ∃ m, fuel = m + 1 := by
    cases fuel with
    | zero => simp [HttpLinkQuery] at hq
    | succ m => exact ⟨m, rfl⟩
  have hqfs := (HttpLinkQuery_frame env s _ _ _ _ hq).1
  obtain ⟨l, hl⟩ := HttpDownload_frame env s q.1 (q.2.logLine ("  [开始下载任务]: " ++ f.TaskId))
  have hfs : (HttpDownload env s q.1 (q.2.logLine ("  [开始下载任务]: " ++ f.TaskId))).2.fs = w.fs := by
    rw [hl]
    exact hqfs
  have hfiles : ∀ p, fs1.content p = w.fs.content p := by
    intro p
    unfold FS.content
    rw [osMkdirAll_files _ _ _ hmk]
  unfold diskDownload
  rw [hq, Outcome.bind_ok]
  simp only [hflag, if_true, hfs, hmk, duplicateTitle, hfree, Outcome.bind_ok]
  refine ⟨_, (HttpDownload env s q.1 (q.2.logLine ("  [开始下载任务]: " ++ f.TaskId))).1, rfl, ?_, ?_⟩
  · cases hc : osCreate fs1 (RemoveBlank f.Path ++ "." ++ s.UserCfg.ExportType) <;>
      simp [World.logLine]
  · intro p hp
    cases hc : osCreate fs1 (RemoveBlank f.Path ++ "." ++ s.UserCfg.ExportType) with
    | none =>
      simp only [World.logLine]
      exact hfiles p
    | some fs2 =>
      simp only [World.logLine]
      rw [osWrite_content _ _ _ _ hp, osCreate_content _ _ _ _ hc hp]
      exact hfiles p

theorem diskDownload_removeBlank_witness :
    myDoc.Path = "download/A B/My Doc" ∧
      osStat freshWorld.fs myDoc.Path = .notExist ∧
      osMkdirAll freshWorld.fs (RemoveBlank (filepathDir myDoc.Path)) = some madeFS ∧
      osStat madeFS myDoc.Path = .notExist ∧
      RemoveBlank myDoc.Path ++ "." ++ blankShimo.UserCfg.ExportType = "download/AB/MyDoc.md" ∧
      (diskDownload (echoEnv noListing) blankShimo 3 myDoc freshWorld).map
          (fun w => w.files.map Prod.fst) = .ok ["download/AB/MyDoc.md"] ∧
      ∃ (w1 : World) (b : String),
        diskDownload (echoEnv noListing) blankShimo 3 myDoc freshWorld = .ok w1 ∧
          (w1.fs =
            match osCreate madeFS (RemoveBlank myDoc.Path ++ "." ++ blankShimo.UserCfg.ExportType) with
            | none => madeFS
            | some fs2 =>
              osWrite fs2 (RemoveBlank myDoc.Path ++ "." ++ blankShimo.UserCfg.ExportType) b) ∧
          ∀ p, filepathClean p ≠
              filepathClean (RemoveBlank myDoc.Path ++ "." ++ blankShimo.UserCfg.ExportType) →
            w1.fs.content p = freshWorld.fs.content p := by
  refine ⟨by decide!, by decide!, by decide!, by decide!, by decide!, by decide!, ?_⟩
  obtain ⟨q, hq⟩ := Outcome.exists_of_isOk
    (by decide! : (HttpLinkQuery (echoEnv noListing) blankShimo 3 myDoc.TaskId freshWorld).isOk = true)
  exact diskDownload_removeBlank (echoEnv noListing) blankShimo 3 myDoc freshWorld q madeFS rfl hq
    (by decide!) (by decide!)

/-! ## Traversal -/

theorem HttpExport_trace (env : Env) (s : Shimo) (id : String) (w : World)
    (e : String × World) (h : HttpExport env s id w = .ok e) :
    e.2.exported = w.exported ++ [id] ∧ e.2.downloaded = w.downloaded := by
  unfold HttpExport at h
  dsimp only at h
  obtain ⟨l, hl⟩ := httpRequest_frame env (exportUri id s.UserCfg.ExportType)
    s.HttpStrategy.Retry10 s.UserCfg.ShimoSid s.HttpStrategy.SleepTime
    (w.logLine ("  [获取导出ID]: " ++ id))
  generalize httpRequest env (exportUri id s.UserCfg.ExportType)
    s.HttpStrategy.Retry10 s.UserCfg.ShimoSid s.HttpStrategy.SleepTime
    (w.logLine ("  [获取导出ID]: " ++ id)) = r at h hl
  obtain ⟨⟨b, err⟩, w1⟩ := r
  simp only at hl
  subst hl
  cases err with
  | some err => simp at h
  | none =>
    simp only at h
    split at h
    · simp at h
    · cases h
      simp [World.logLine]

theorem diskDownload_trace (env : Env) (s : Shimo) (fuel : Nat) (f : FileInfo) (w w1 : World)
    (h : diskDownload env s fuel f w = .ok w1) :
    w1.exported = w.exported ∧ w1.downloaded = w.downloaded ++ [f] := by
  unfold diskDownload at h
  obtain ⟨q, hq, h⟩ := Outcome.bind_eq_ok h
  have hfr := HttpLinkQuery_frame env s _ _ _ _ hq
  dsimp only at h
  obtain ⟨l, hl⟩ := HttpDownload_frame env s q.1 (q.2.logLine ("  [开始下载任务]: " ++ f.TaskId))
  generalize HttpDownload env s q.1 (q.2.logLine ("  [开始下载任务]: " ++ f.TaskId)) = bw at h hl
  obtain ⟨b, w2⟩ := bw
  simp only at hl
  subst hl
  simp only at h
  split at h
  · simp at h
  · obtain ⟨p, _, h⟩ := Outcome.bind_eq_ok h
    cases h
    generalize osCreate _ _ = c
    cases c <;> simp [World.logLine, hfr.2.1, hfr.2.2.1]

theorem downloadFiles_trace (env : Env) (s : Shimo) (fuel : Nat) :
    ∀ (fl : List FileInfo) (w : World) (r : List FileInfo × World),
      downloadFiles env s fuel fl w = .ok r →
      r.2.exported = w.exported ++ fl.map FileInfo.Id ∧
        r.2.downloaded = w.downloaded ++ r.1 ∧
        r.1.map FileInfo.unstamped = fl.map FileInfo.unstamped := by
  intro fl
  induction fl with
  | nil =>
    intro w r h
    simp [downloadFiles] at h
    subst h
    simp
  | cons f rest ih =>
    intro w r h
    rw [downloadFiles] at h
    obtain ⟨e, he, h⟩ := Outcome.bind_eq_ok h
    obtain ⟨w2, hd, h⟩ := Outcome.bind_eq_ok h
    obtain ⟨r1, hr, h⟩ := Outcome.bind_eq_ok h
    cases h
    have h1 := HttpExport_trace env s _ _ _ he
    have h2 := diskDownload_trace env s _ _ _ _ hd
    have h3 := ih _ _ hr
    simp only [logLine_exported, logLine_downloaded] at h1 h2 h3
    refine ⟨?_, ?_, ?_⟩
    · simp [h3.1, h2.1, h1.1]
    · simp [h3.2.1, h2.2, h1.2]
    · simp [h3.2.2, FileInfo.unstamped]

theorem pauseCheck_trace (env : Env) (w w1 : World) (h : pauseCheck env w = .ok w1) :
    w1.exported = w.exported ∧ w1.downloaded = w.downloaded ∧ w1.fs = w.fs ∧ w1.sent = w.sent := by
  unfold pauseCheck at h
  split at h
  · cases h; simp
  · cases h; simp [World.logLine]
  · simp at h

theorem traverseFiles_trace (env : Env) (s : Shimo) (fuel : Nat)
    (files : Option (Option (List FileInfo))) (w : World)
    (r : Option (Option (List FileInfo)) × World)
    (h : traverseFiles env s fuel files w = .ok r) :
    r.2.exported = w.exported ++ (filesOf files).map FileInfo.Id ∧
      r.2.downloaded = w.downloaded ++ filesOf r.1 ∧
      (filesOf r.1).map FileInfo.unstamped = (filesOf files).map FileInfo.unstamped := by
  unfold traverseFiles at h
  cases files with
  | none =>
    cases h
    simp [filesOf]
  | some fl =>
    simp only at h
    obtain ⟨w1, hp, h⟩ := Outcome.bind_eq_ok h
    obtain ⟨r1, hr, h⟩ := Outcome.bind_eq_ok h
    cases h
    have h1 := pauseCheck_trace env _ _ hp
    have h2 := downloadFiles_trace env s fuel _ _ _ hr
    rw [h1.1, h1.2.1] at h2
    cases fl with
    | none =>
      simp only [Option.getD] at h2 hr
      simp [downloadFiles] at hr
      subst hr
      simpa [filesOf] using h2
    | some l => simpa [filesOf] using h2

mutual
theorem TraverseTree_trace (env : Env) (s : Shimo) (fuel : Nat) :
    ∀ (tree : DirInfo) (w : World) (r : DirInfo × World),
      TraverseTree env s fuel tree w = .ok r →
      r.2.exported = w.exported ++ (docOrder tree).map FileInfo.Id ∧
        r.2.downloaded = w.downloaded ++ docOrder r.1 ∧
        (docOrder r.1).map FileInfo.unstamped = (docOrder tree).map FileInfo.unstamped
  | .mk _ none files, w, r, h => by
    rw [TraverseTree] at h
    obtain ⟨_, _, h⟩ := Outcome.bind_eq_ok h
    simp at h
  | .mk info (some none) files, w, r, h => by
    rw [TraverseTree] at h
    obtain ⟨r1, h1, h⟩ := Outcome.bind_eq_ok h
    cases h
    have := traverseFiles_trace env s fuel files w r1 h1
    simpa [docOrder, World.logLine] using this
  | .mk info (some (some dl)) files, w, r, h => by
    rw [TraverseTree] at h
    obtain ⟨r1, h1, h⟩ := Outcome.bind_eq_ok h
    obtain ⟨rs, h2, h⟩ := Outcome.bind_eq_ok h
    cases h
    have hf := traverseFiles_trace env s fuel files w r1 h1
    have hd := traverseDirs_trace env s fuel dl r1.2 rs h2
    refine ⟨?_, ?_, ?_⟩
    · simp [docOrder, hd.1, hf.1]
    · simp [docOrder, hd.2.1, hf.2.1]
    · simp [docOrder, hd.2.2, hf.2.2]
theorem traverseDirs_trace (env : Env) (s : Shimo) (fuel : Nat) :
    ∀ (dl : List DirInfo) (w : World) (r : List DirInfo × World),
      traverseDirs env s fuel dl w = .ok r →
      r.2.exported = w.exported ++ (docOrderList dl).map FileInfo.Id ∧
        r.2.downloaded = w.downloaded ++ docOrderList r.1 ∧
        (docOrderList r.1).map FileInfo.unstamped = (docOrderList dl).map FileInfo.unstamped
  | [], w, r, h => by
    rw [traverseDirs] at h
    cases h
    simp [docOrderList]
  | d :: ds, w, r, h => by
    rw [traverseDirs] at h
    obtain ⟨r1, h1, h⟩ := Outcome.bind_eq_ok h
    obtain ⟨rs, h2, h⟩ := Outcome.bind_eq_ok h
    cases h
    have hd := TraverseTree_trace env s fuel d w r1 h1
    have hs := traverseDirs_trace env s fuel ds r1.2 rs h2
    refine ⟨?_, ?_, ?_⟩
    · simp [docOrderList, hs.1, hd.1]
    · simp [docOrderList, hs.2.1, hd.2.1]
    · simp [docOrderList, hs.2.2, hd.2.2]
end

/-- C3: whenever `TraverseTree` returns, the documents whose export it
requested and the documents it downloaded are, in this order, the documents of
the folder in list order followed by those of each child folder in list order;
the entries it downloaded are those of the tree it leaves, which are the
entries it was given with their export task written in. -/
theorem TraverseTree_preorder (env : Env) (s : Shimo) (fuel : Nat) (tree : DirInfo) (w : World)
    (r : DirInfo × World) (h : TraverseTree env s fuel tree w = .ok r) :
    r.2.exported = w.exported ++ (docOrder tree).map FileInfo.Id ∧
      r.2.downloaded = w.downloaded ++ docOrder r.1 ∧
      (docOrder r.1).map FileInfo.unstamped = (docOrder tree).map FileInfo.unstamped :=
  TraverseTree_trace env s fuel tree w r h

theorem TraverseTree_preorder_witness :
    ∃ (built : Shimo × DirInfo × World) (r : DirInfo × World),
      BuildStructureTree (echoEnv abcListing) 3 demoShimo (rootDir "download") emptyWorld =
          .ok built ∧
        TraverseTree (echoEnv abcListing) built.1 3 built.2.1 built.2.2 = .ok r ∧
        (docOrder built.2.1).map FileInfo.Title = ["a", "b", "c"] ∧
        (docOrder built.2.1).map FileInfo.Id = ["ida", "idb", "idc"] ∧
        r.2.exported = built.2.2.exported ++ (docOrder built.2.1).map FileInfo.Id ∧
        r.2.downloaded = built.2.2.downloaded ++ docOrder r.1 ∧
        (docOrder r.1).map FileInfo.unstamped = (docOrder built.2.1).map FileInfo.unstamped ∧
        r.2.exported = ["ida", "idb", "idc"] ∧
        r.2.downloaded.map FileInfo.Title = ["a", "b", "c"] := by
  obtain ⟨built, hb⟩ := Outcome.exists_of_isOk
    (by decide! : (BuildStructureTree (echoEnv abcListing) 3 demoShimo (rootDir "download")
      emptyWorld).isOk = true)
  obtain ⟨r, hr⟩ := Outcome.exists_of_isOk
    (by decide! : (run (echoEnv abcListing) demoShimo 3 emptyWorld).isOk = true)
  have hr1 : TraverseTree (echoEnv abcListing) built.1 3 built.2.1 built.2.2 = .ok r := by
    have := hr
    unfold run at this
    rw [show demoShimo.UserCfg.RootPath = "download" from rfl, hb] at this
    exact this
  have hdocs := Outcome.map_of_eq_ok hb
    (by decide! : (BuildStructureTree (echoEnv abcListing) 3 demoShimo (rootDir "download")
      emptyWorld).map (fun b => ((docOrder b.2.1).map FileInfo.Title,
        (docOrder b.2.1).map FileInfo.Id)) = .ok (["a", "b", "c"], ["ida", "idb", "idc"]))
  have hrun := Outcome.map_of_eq_ok hr
    (by decide! : (run (echoEnv abcListing) demoShimo 3 emptyWorld).map
      (fun r => (r.2.exported, r.2.downloaded.map FileInfo.Title)) =
        .ok (["ida", "idb", "idc"], ["a", "b", "c"]))
  have hthm := TraverseTree_preorder (echoEnv abcListing) built.1 3 built.2.1 built.2.2 r hr1
  simp only [Prod.mk.injEq] at hdocs hrun
  exact ⟨built, r, hb, hr1, hdocs.1, hdocs.2, hthm.1, hthm.2.1, hthm.2.2, hrun.1, hrun.2⟩

/-- C10 fails as worded: on the node `createDirInfo` leaves (`Dirs` is the nil
pointer) `TraverseTree` does not return; it panics on the dereference of
`node.Dirs`. -/
theorem TraverseTree_unrecorded_dirs :
    (createDirInfo "download" (entry "folder" "idX" "X")).Dirs = none ∧
      (TraverseTree (echoEnv noListing) demoShimo 3
        (createDirInfo "download" (entry "folder" "idX" "X")) freshWorld).isOk = false ∧
      (TraverseTree (echoEnv noListing) demoShimo 3
        (createDirInfo "download" (entry "folder" "idX" "X")) freshWorld).map (fun r => r.2.log) =
        .panic "runtime error: invalid memory address or nil pointer dereference" :=
  ⟨rfl, by decide!, by decide!⟩

/-- A node whose `Dirs` is the nil pointer never lets `TraverseTree` return. -/
theorem TraverseTree_nil_dirs (env : Env) (s : Shimo) (fuel : Nat) (info : FileInfo)
    (files : Option (Option (List FileInfo))) (w : World) :
    (TraverseTree env s fuel (.mk info none files) w).isOk = false := by
  rw [TraverseTree]
  cases traverseFiles env s fuel files w <;> rfl

/-! ## Pause and resume -/

theorem Outcome.agree_bind {α β γ δ : Type} {R : α → β → Prop} {Q : γ → δ → Prop}
    {o : Outcome α} {p : Outcome β} {f : α → Outcome γ} {g : β → Outcome δ}
    (h : Outcome.agree R o p) (hfg : ∀ a b, R a b → Outcome.agree Q (f a) (g b)) :
    Outcome.agree Q (o.bind f) (p.bind g) := by
  cases h with
  | ok h => exact hfg _ _ h
  | panic m => exact .panic m
  | hang => exact .hang

theorem sameEffects_logLine {w v : World} (h : w.sameEffects v) (l : String) :
    (w.logLine l).sameEffects v := h

theorem sameEffects_logLine_right {w v : World} (h : w.sameEffects v) (l : String) :
    w.sameEffects (v.logLine l) := h

theorem httpRequestN_sim (env : Env) (uri sid : String) :
    ∀ (n : Nat) (w v : World), w.sameEffects v →
      (httpRequestN env uri sid n w).1 = (httpRequestN (quiet env) uri sid n v).1 ∧
        (httpRequestN env uri sid n w).2.sameEffects (httpRequestN (quiet env) uri sid n v).2 := by
  intro n
  induction n with
  | zero =>
    intro w v h
    have hv : v.sent = w.sent := h.2.1.symm
    rw [httpRequestN, httpRequestN, hv]
    dsimp only [quiet]
    have h1 : World.sameEffects { w with sent := w.sent ++ [uri] }
        { v with sent := w.sent ++ [uri] } := ⟨h.1, rfl, h.2.2.1, h.2.2.2⟩
    cases env.newRequestErr uri with
    | some e => exact ⟨rfl, h⟩
    | none =>
      cases env.net w.sent.length uri sid with
      | fail e => exact ⟨rfl, h1⟩
      | resp code status body => exact ⟨rfl, h1⟩
  | succ n ih =>
    intro w v h
    have hv : v.sent = w.sent := h.2.1.symm
    rw [httpRequestN, httpRequestN, hv]
    dsimp only [quiet]
    cases env.newRequestErr uri with
    | some e => exact ⟨rfl, h⟩
    | none =>
      have h1 : World.sameEffects { w with sent := w.sent ++ [uri] }
          { v with sent := w.sent ++ [uri] } := ⟨h.1, rfl, h.2.2.1, h.2.2.2⟩
      cases env.net w.sent.length uri sid with
      | fail e => exact ⟨rfl, h1⟩
      | resp code status body =>
        by_cases hc : code = 429
        · simp only [hc, if_true]
          exact ih _ _ h1
        · dsimp only
          rw [if_neg hc, if_neg hc]
          exact ⟨rfl, h1⟩

theorem httpRequest_sim (env : Env) (uri : String) (retry : Int) (sid : String) (t : Nat)
    (w v : World) (h : w.sameEffects v) :
    (httpRequest env uri retry sid t w).1 = (httpRequest (quiet env) uri retry sid t v).1 ∧
      (httpRequest env uri retry sid t w).2.sameEffects
        (httpRequest (quiet env) uri retry sid t v).2 :=
  httpRequestN_sim env uri sid retry.toNat w v h

theorem HttpExport_sim (env : Env) (s : Shimo) (id : String) (w v : World)
    (h : w.sameEffects v) :
    Outcome.agree (fun e e0 => e.1 = e0.1 ∧ e.2.sameEffects e0.2)
      (HttpExport env s id w) (HttpExport (quiet env) s id v) := by
  unfold HttpExport
  dsimp only
  have hs := httpRequest_sim env (exportUri id s.UserCfg.ExportType) s.HttpStrategy.Retry10
    s.UserCfg.ShimoSid s.HttpStrategy.SleepTime (w.logLine ("  [获取导出ID]: " ++ id))
    (v.logLine ("  [获取导出ID]: " ++ id)) h
  generalize httpRequest env (exportUri id s.UserCfg.ExportType) s.HttpStrategy.Retry10
    s.UserCfg.ShimoSid s.HttpStrategy.SleepTime (w.logLine ("  [获取导出ID]: " ++ id)) = r at hs
  generalize httpRequest (quiet env) (exportUri id s.UserCfg.ExportType) s.HttpStrategy.Retry10
    s.UserCfg.ShimoSid s.HttpStrategy.SleepTime (v.logLine ("  [获取导出ID]: " ++ id)) = r0 at hs
  obtain ⟨⟨b, e⟩, w1⟩ := r
  obtain ⟨⟨b0, e0⟩, v1⟩ := r0
  obtain ⟨hbe, hw⟩ := hs
  simp only [Prod.mk.injEq] at hbe
  obtain ⟨rfl, rfl⟩ := hbe
  simp only at hw
  cases e with
  | some err => exact .panic err
  | none =>
    simp only [quiet]
    split
    · exact .panic _
    · exact .ok ⟨rfl, hw.1, hw.2.1, by simp [World.logLine, hw.2.2.1], hw.2.2.2⟩

theorem HttpLinkQuery_sim (env : Env) (s : Shimo) :
    ∀ (fuel : Nat) (tid : String) (w v : World), w.sameEffects v →
      Outcome.agree (fun e e0 => e.1 = e0.1 ∧ e.2.sameEffects e0.2)
        (HttpLinkQuery env s fuel tid w) (HttpLinkQuery (quiet env) s fuel tid v) := by
  intro fuel
  induction fuel with
  | zero => intro tid w v _; exact .hang
  | succ fuel ih =>
    intro tid w v h
    rw [HttpLinkQuery, HttpLinkQuery]
    dsimp only
    have hs := httpRequest_sim env (queryUri tid) s.HttpStrategy.Retry20
      s.UserCfg.ShimoSid s.HttpStrategy.SleepTime w v h
    generalize httpRequest env (queryUri tid) s.HttpStrategy.Retry20
      s.UserCfg.ShimoSid s.HttpStrategy.SleepTime w = r at hs
    generalize httpRequest (quiet env) (queryUri tid) s.HttpStrategy.Retry20
      s.UserCfg.ShimoSid s.HttpStrategy.SleepTime v = r0 at hs
    obtain ⟨⟨b, e⟩, w1⟩ := r
    obtain ⟨⟨b0, e0⟩, v1⟩ := r0
    obtain ⟨hbe, hw⟩ := hs
    simp only [Prod.mk.injEq] at hbe
    obtain ⟨rfl, rfl⟩ := hbe
    cases e with
    | some err => exact .panic err
    | none =>
      simp only [quiet]
      split
      · exact ih _ _ _ hw
      · exact .ok ⟨rfl, hw⟩

theorem HttpDownload_sim (env : Env) (s : Shimo) (uri : String) (w v : World)
    (h : w.sameEffects v) :
    (HttpDownload env s uri w).1 = (HttpDownload (quiet env) s uri v).1 ∧
      (HttpDownload env s uri w).2.sameEffects (HttpDownload (quiet env) s uri v).2 := by
  have hs := httpRequest_sim env uri s.HttpStrategy.Retry2 s.UserCfg.ShimoSid
    s.HttpStrategy.SleepTime w v h
  dsimp only [HttpDownload]
  exact ⟨by rw [hs.1], hs.2⟩

theorem diskDownload_sim (env : Env) (s : Shimo) (fuel : Nat) (f : FileInfo) (w v : World)
    (h : w.sameEffects v) :
    Outcome.agree World.sameEffects
      (diskDownload env s fuel f w) (diskDownload (quiet env) s fuel f v) := by
  unfold diskDownload
  refine Outcome.agree_bind (HttpLinkQuery_sim env s fuel f.TaskId w v h) ?_
  rintro ⟨dl, w1⟩ ⟨dl0, v1⟩ ⟨hdl, hw⟩
  simp only at hdl hw
  subst hdl
  dsimp only
  have hd := HttpDownload_sim env s dl (w1.logLine ("  [开始下载任务]: " ++ f.TaskId))
    (v1.logLine ("  [开始下载任务]: " ++ f.TaskId)) hw
  generalize HttpDownload env s dl (w1.logLine ("  [开始下载任务]: " ++ f.TaskId)) = r at hd
  generalize HttpDownload (quiet env) s dl (v1.logLine ("  [开始下载任务]: " ++ f.TaskId)) = r0 at hd
  obtain ⟨b, w2⟩ := r
  obtain ⟨b0, v2⟩ := r0
  obtain ⟨hb, hw2⟩ := hd
  simp only at hb hw2
  subst hb
  simp only [← hw2.1]
  cases osMkdirAll w2.fs (if s.UserCfg.RemoveBlank = true then RemoveBlank (filepathDir f.Path)
      else filepathDir f.Path) with
  | none => exact .panic _
  | some fs1 =>
    dsimp only
    cases duplicateTitle fs1 fuel f.Path with
    | panic m => exact .panic m
    | hang => exact .hang
    | ok p =>
      simp only [Outcome.bind]
      cases osCreate fs1 ((if s.UserCfg.RemoveBlank = true then RemoveBlank p else p) ++ "." ++
          s.UserCfg.ExportType) with
      | none => exact .ok ⟨rfl, hw2.2.1, hw2.2.2.1, by simp [World.logLine, hw2.2.2.2]⟩
      | some fs2 => exact .ok ⟨rfl, hw2.2.1, hw2.2.2.1, by simp [World.logLine, hw2.2.2.2]⟩

theorem downloadFiles_sim (env : Env) (s : Shimo) (fuel : Nat) :
    ∀ (fl : List FileInfo) (w v : World), w.sameEffects v →
      Outcome.agree (fun r r0 => r.1 = r0.1 ∧ r.2.sameEffects r0.2)
        (downloadFiles env s fuel fl w) (downloadFiles (quiet env) s fuel fl v) := by
  intro fl
  induction fl with
  | nil =>
    intro w v h
    exact .ok ⟨rfl, h⟩
  | cons f rest ih =>
    intro w v h
    rw [downloadFiles, downloadFiles]
    refine Outcome.agree_bind (HttpExport_sim env s f.Id _ _
      (sameEffects_logLine (sameEffects_logLine_right h _) _)) ?_
    rintro ⟨tid, w1⟩ ⟨tid0, v1⟩ ⟨ht, hw⟩
    simp only at ht hw
    subst ht
    refine Outcome.agree_bind (diskDownload_sim env s fuel _ w1 v1 hw) ?_
    intro w2 v2 hw2
    refine Outcome.agree_bind (ih _ _
      (sameEffects_logLine (sameEffects_logLine (sameEffects_logLine_right
        (sameEffects_logLine_right hw2 _) _) _) _)) ?_
    rintro ⟨l, w3⟩ ⟨l0, v3⟩ ⟨hl, hw3⟩
    simp only at hl hw3
    subst hl
    exact .ok ⟨rfl, hw3⟩

theorem pauseCheck_sim (env : Env) (hresume : ∀ k, env.pause k ≠ .stuck) (w v : World)
    (h : w.sameEffects v) :
    Outcome.agree World.sameEffects (pauseCheck env w) (pauseCheck (quiet env) v) := by
  unfold pauseCheck
  dsimp only [quiet]
  have := hresume w.checks
  cases hp : env.pause w.checks with
  | idle => exact .ok h
  | toggled => exact .ok h
  | stuck => exact (this hp).elim

theorem traverseFiles_sim (env : Env) (hresume : ∀ k, env.pause k ≠ .stuck) (s : Shimo)
    (fuel : Nat) (files : Option (Option (List FileInfo))) (w v : World)
    (h : w.sameEffects v) :
    Outcome.agree (fun r r0 => r.1 = r0.1 ∧ r.2.sameEffects r0.2)
      (traverseFiles env s fuel files w) (traverseFiles (quiet env) s fuel files v) := by
  unfold traverseFiles
  cases files with
  | none => exact .ok ⟨rfl, h⟩
  | some fl =>
    dsimp only
    refine Outcome.agree_bind (pauseCheck_sim env hresume w v h) ?_
    intro w1 v1 hw1
    refine Outcome.agree_bind (downloadFiles_sim env s fuel _ w1 v1 hw1) ?_
    rintro ⟨l, w2⟩ ⟨l0, v2⟩ ⟨hl, hw2⟩
    simp only at hl hw2
    subst hl
    exact .ok ⟨rfl, hw2⟩

mutual
theorem TraverseTree_sim (env : Env) (hresume : ∀ k, env.pause k ≠ .stuck) (s : Shimo)
    (fuel : Nat) :
    ∀ (tree : DirInfo) (w v : World), w.sameEffects v →
      Outcome.agree (fun r r0 => r.1 = r0.1 ∧ r.2.sameEffects r0.2)
        (TraverseTree env s fuel tree w) (TraverseTree (quiet env) s fuel tree v)
  | .mk _ none files, w, v, h => by
    rw [TraverseTree, TraverseTree]
    refine Outcome.agree_bind (traverseFiles_sim env hresume s fuel files w v h) ?_
    intro _ _ _
    exact .panic _
  | .mk info (some none) files, w, v, h => by
    rw [TraverseTree, TraverseTree]
    refine Outcome.agree_bind (traverseFiles_sim env hresume s fuel files w v h) ?_
    rintro ⟨l, w1⟩ ⟨l0, v1⟩ ⟨hl, hw1⟩
    simp only at hl hw1
    subst hl
    exact .ok ⟨rfl, hw1⟩
  | .mk info (some (some dl)) files, w, v, h => by
    rw [TraverseTree, TraverseTree]
    refine Outcome.agree_bind (traverseFiles_sim env hresume s fuel files w v h) ?_
    rintro ⟨l, w1⟩ ⟨l0, v1⟩ ⟨hl, hw1⟩
    simp only at hl hw1
    subst hl
    refine Outcome.agree_bind (traverseDirs_sim env hresume s fuel dl w1 v1 hw1) ?_
    rintro ⟨ds, w2⟩ ⟨ds0, v2⟩ ⟨hd, hw2⟩
    simp only at hd hw2
    subst hd
    exact .ok ⟨rfl, hw2⟩
theorem traverseDirs_sim (env : Env) (hresume : ∀ k, env.pause k ≠ .stuck) (s : Shimo)
    (fuel : Nat) :
    ∀ (dl : List DirInfo) (w v : World), w.sameEffects v →
      Outcome.agree (fun r r0 => r.1 = r0.1 ∧ r.2.sameEffects r0.2)
        (traverseDirs env s fuel dl w) (traverseDirs (quiet env) s fuel dl v)
  | [], w, v, h => by
    rw [traverseDirs, traverseDirs]
    exact .ok ⟨rfl, h⟩
  | d :: ds, w, v, h => by
    rw [traverseDirs, traverseDirs]
    refine Outcome.agree_bind (TraverseTree_sim env hresume s fuel d w v h) ?_
    rintro ⟨t, w1⟩ ⟨t0, v1⟩ ⟨ht, hw1⟩
    simp only at ht hw1
    subst ht
    refine Outcome.agree_bind (traverseDirs_sim env hresume s fuel ds w1 v1 hw1) ?_
    rintro ⟨l, w2⟩ ⟨l0, v2⟩ ⟨hl, hw2⟩
    simp only at hl hw2
    subst hl
    exact .ok ⟨rfl, hw2⟩
end

/-- C9: if every pause signal is followed by its resume signal, `TraverseTree`
ends the way it ends when no signal is sent: it returns in both runs, panics
with the same message in both, or hangs in both; and when it returns, the tree,
the disk, the requests sent, the exports requested and the documents
downloaded are the same, in the same order. -/
theorem TraverseTree_pause_resume (env : Env) (s : Shimo) (fuel : Nat) (tree : DirInfo)
    (w : World) (hresume : ∀ k, env.pause k ≠ .stuck) :
    Outcome.agree (fun r r0 => r.1 = r0.1 ∧ r.2.sameEffects r0.2)
      (TraverseTree env s fuel tree w) (TraverseTree (quiet env) s fuel tree w) :=
  TraverseTree_sim env hresume s fuel tree w w ⟨rfl, rfl, rfl, rfl⟩

theorem TraverseTree_pause_resume_witness :
    (∀ k, (pausingEnv abcListing).pause k ≠ .stuck) ∧
      (TraverseTree (pausingEnv abcListing) demoShimo 3 abcTree emptyWorld).map
          (fun r => (r.2.downloaded.map FileInfo.Title,
            r.2.log.filter (fun l => l = "------> [下载暂停] <------" ∨
              l = "------> [下载继续] <------"))) =
        .ok (["a", "b", "c"], ["------> [下载暂停] <------", "------> [下载继续] <------"]) ∧
      (TraverseTree (quiet (pausingEnv abcListing)) demoShimo 3 abcTree emptyWorld).map
          (fun r => (r.2.downloaded.map FileInfo.Title,
            r.2.log.filter (fun l => l = "------> [下载暂停] <------" ∨
              l = "------> [下载继续] <------"))) =
        .ok (["a", "b", "c"], []) ∧
      Outcome.agree (fun r r0 => r.1 = r0.1 ∧ r.2.sameEffects r0.2)
        (TraverseTree (pausingEnv abcListing) demoShimo 3 abcTree emptyWorld)
        (TraverseTree (quiet (pausingEnv abcListing)) demoShimo 3 abcTree emptyWorld) := by
  have hres : ∀ k, (pausingEnv abcListing).pause k ≠ .stuck := by
    intro k
    simp only [pausingEnv]
    split <;> simp
  refine ⟨hres, ?_, ?_, ?_⟩
  · decide!
  · decide!
  · exact TraverseTree_pause_resume (pausingEnv abcListing) demoShimo 3 abcTree emptyWorld hres

/-! ## Discovery -/

theorem sortEntry_foldl (path : String) :
    ∀ (l : List FileInfo) (dl : List DirInfo) (fl : List FileInfo),
      l.foldl (sortEntry path) (some dl, some fl) =
        (some (dl ++ (l.filter (fun e => e.Kind = "folder")).map (createDirInfo path)),
          some (fl ++ (l.filter (fun e => e.Kind = "newdoc")).map (createFileInfo path))) := by
  intro l
  induction l with
  | nil => intro dl fl; simp
  | cons e l ih =>
    intro dl fl
    rw [List.foldl_cons]
    by_cases hf : e.Kind = "folder"
    · have hstep : sortEntry path (some dl, some fl) e =
          (some (dl ++ [createDirInfo path e]), some fl) := by
        simp [sortEntry, hf, sliceAppend]
      rw [hstep, ih]
      simp [hf]
    · by_cases hn : e.Kind = "newdoc"
      · have hstep : sortEntry path (some dl, some fl) e =
            (some dl, some (fl ++ [createFileInfo path e])) := by
          simp [sortEntry, hn, sliceAppend]
        rw [hstep, ih]
        simp [hf, hn]
      · have hstep : sortEntry path (some dl, some fl) e = (some dl, some fl) := by
          simp [sortEntry, hf, hn]
        rw [hstep, ih]
        simp [hf, hn]

/-- What discovery returns for a folder: the folders and the documents of the
decoded listing, in the order of the listing, with their paths under `path`. -/
theorem fetchDirectoryInfo_ok (env : Env) (s : Shimo) (path id : String) (w : World)
    (r : (Option (List DirInfo) × Option (List FileInfo)) × World)
    (h : fetchDirectoryInfo env s path id (some []) (some []) w = .ok r) :
    ∃ l : List FileInfo, r.1.1 = some ((l.filter (fun e => e.Kind = "folder")).map (createDirInfo path)) ∧
      r.1.2 = some ((l.filter (fun e => e.Kind = "newdoc")).map (createFileInfo path)) := by
  unfold fetchDirectoryInfo at h
  dsimp only at h
  generalize httpRequest env (if id ≠ "" then listUri id else smUrl.Root) s.HttpStrategy.Retry2
    s.UserCfg.ShimoSid s.HttpStrategy.SleepTime w = q at h
  obtain ⟨⟨b, e⟩, w1⟩ := q
  cases e with
  | some err => simp at h
  | none =>
    simp only at h
    cases hd : env.decodeFiles b with
    | none => simp [hd] at h
    | some l =>
      simp only [hd] at h
      cases h
      refine ⟨l, ?_, ?_⟩ <;> simp [sortEntry_foldl]

theorem countFiles_fst : ∀ (fl : List FileInfo) (s : Shimo) (w : World),
    (countFiles fl s w).1 = { s with FileCount := s.FileCount + fl.length } := by
  intro fl
  induction fl with
  | nil => intro s w; simp [countFiles]
  | cons f rest ih =>
    intro s w
    rw [countFiles, ih]
    simp only [List.length_cons, Nat.cast_add, Nat.cast_one]
    congr 1
    omega

theorem buildDirs_post (build : Shimo → DirInfo → World → Outcome (Shimo × DirInfo × World))
    (hb : ∀ s d w r, build s d w = .ok r → BuildPost s d r) (P : String) :
    ∀ (dl : List DirInfo) (s : Shimo) (w : World) (r : Shimo × List DirInfo × World),
      (∀ d ∈ dl, d.info.Path = P ++ "/" ++ d.info.Title) →
      buildDirs build dl s w = .ok r →
      r.1.FileCount = s.FileCount + countDocsList r.2.1 ∧ r.1.UserCfg = s.UserCfg ∧
        r.1.HttpStrategy = s.HttpStrategy ∧ wellPathedList P r.2.1 := by
  intro dl
  induction dl with
  | nil =>
    intro s w r _ h
    rw [buildDirs] at h
    cases h
    simp [countDocsList, wellPathedList]
  | cons d ds ih =>
    intro s w r hP h
    rw [buildDirs] at h
    obtain ⟨r1, h1, h⟩ := Outcome.bind_eq_ok h
    obtain ⟨rs, h2, h⟩ := Outcome.bind_eq_ok h
    cases h
    obtain ⟨hc, hu, hh, hi, hw⟩ := hb _ _ _ _ h1
    obtain ⟨hc2, hu2, hh2, hw2⟩ := ih r1.1 r1.2.2 rs (fun d hd => hP d (List.mem_cons_of_mem _ hd)) h2
    refine ⟨?_, hu2.trans hu, hh2.trans hh, ?_⟩
    · simp only [countDocsList, hc2, hc, Nat.cast_add]
      omega
    · simp only [wellPathedList]
      refine ⟨?_, hw, hw2⟩
      rw [hi]
      exact hP d (List.mem_cons_self _ _)

theorem BuildStructureTree_post (env : Env) :
    ∀ (fuel : Nat) (s : Shimo) (tree : DirInfo) (w : World) (r : Shimo × DirInfo × World),
      BuildStructureTree env fuel s tree w = .ok r → BuildPost s tree r := by
  intro fuel
  induction fuel with
  | zero => intro s tree w r h; simp [BuildStructureTree] at h
  | succ fuel ih =>
    intro s tree w r h
    rw [BuildStructureTree] at h
    obtain ⟨q, hq, h⟩ := Outcome.bind_eq_ok h
    obtain ⟨l, hdl, hfl⟩ := fetchDirectoryInfo_ok env s _ _ w q hq
    obtain ⟨⟨qd, qf⟩, qw⟩ := q
    simp only at hdl hfl
    subst hdl hfl
    dsimp only at h
    obtain ⟨rs, h2, h⟩ := Outcome.bind_eq_ok h
    cases h
    simp only [Option.getD_some] at h2
    rw [countFiles_fst] at h2
    have hpost := buildDirs_post (fun s1 d w1 => BuildStructureTree env fuel s1 d w1)
      (fun s d w r h => ih s d w r h) tree.info.Path _ _ _ rs
      (by
        intro d hd
        simp only [List.mem_map, List.mem_filter] at hd
        obtain ⟨e, _, rfl⟩ := hd
        rfl) h2
    obtain ⟨hc, hu, hh, hw⟩ := hpost
    refine ⟨?_, hu, hh, rfl, ?_⟩
    · show rs.1.FileCount = s.FileCount + ((countDocs (DirInfo.mk tree.info (some (some rs.2.1))
        (some (some ((l.filter (fun e => e.Kind = "newdoc")).map
          (createFileInfo tree.info.Path))))) : Nat) : Int)
      rw [countDocs, hc]
      simp only [filesOf, Nat.cast_add]
      omega
    · show wellPathed (DirInfo.mk tree.info (some (some rs.2.1))
        (some (some ((l.filter (fun e => e.Kind = "newdoc")).map
          (createFileInfo tree.info.Path)))))
      rw [wellPathed]
      refine ⟨?_, hw⟩
      intro f hf
      simp only [filesOf, List.mem_map, List.mem_filter] at hf
      obtain ⟨e, _, rfl⟩ := hf
      rfl

theorem chainPath_cons (P t : String) (c : List String) :
    chainPath P (t :: c) = chainPath (P ++ "/" ++ t) c := rfl

mutual
theorem wellPathed_entries :
    ∀ (tree : DirInfo), wellPathed tree →
      ∀ e ∈ entries tree, e.2 = chainPath tree.info.Path e.1
  | .mk info none files, h, e, he => by
    rw [wellPathed] at h
    rw [entries] at he
    simp only [List.mem_map] at he
    obtain ⟨f, hf, rfl⟩ := he
    exact h f hf
  | .mk info (some none) files, h, e, he => by
    rw [wellPathed] at h
    rw [entries] at he
    simp only [List.mem_map] at he
    obtain ⟨f, hf, rfl⟩ := he
    exact h f hf
  | .mk info (some (some dl)) files, h, e, he => by
    rw [wellPathed] at h
    rw [entries] at he
    simp only [List.mem_append, List.mem_map] at he
    rcases he with ⟨f, hf, rfl⟩ | he
    · exact h.1 f hf
    · exact wellPathedList_entries info.Path dl h.2 e he
theorem wellPathedList_entries (P : String) :
    ∀ (dl : List DirInfo), wellPathedList P dl →
      ∀ e ∈ entriesList dl, e.2 = chainPath P e.1
  | [], _, e, he => by
    simp [entriesList] at he
  | d :: ds, h, e, he => by
    rw [wellPathedList] at h
    rw [entriesList] at he
    simp only [List.mem_cons, List.mem_append, List.mem_map] at he
    rcases he with rfl | ⟨e1, he1, rfl⟩ | he
    · exact h.1
    · have := wellPathed_entries d h.2.1 e1 he1
      rw [chainPath_cons, ← h.1]
      exact this
    · exact wellPathedList_entries P ds h.2.2 e he
end

theorem FiniteBelow_counter (env : Env) (s : Shimo) (c : Int) :
    ∀ (n : Nat) (id : String),
      FiniteBelow env { s with FileCount := c } n id ↔ FiniteBelow env s n id := by
  intro n
  induction n with
  | zero => intro id; exact Iff.rfl
  | succ n ih =>
    intro id
    constructor
    · intro h c1 path w
      obtain ⟨r, hr, hd⟩ := h c1 path w
      exact ⟨r, hr, fun d hm => (ih _).1 (hd d hm)⟩
    · intro h c1 path w
      obtain ⟨r, hr, hd⟩ := h c1 path w
      exact ⟨r, hr, fun d hm => (ih _).2 (hd d hm)⟩

theorem FiniteBelow_of_cfg (env : Env) (s s1 : Shimo) (hu : s1.UserCfg = s.UserCfg)
    (hh : s1.HttpStrategy = s.HttpStrategy) (n : Nat) (id : String)
    (h : FiniteBelow env s n id) : FiniteBelow env s1 n id := by
  have : s1 = { s with FileCount := s1.FileCount } := by
    cases s1
    cases s
    simp_all
  rw [this]
  exact (FiniteBelow_counter env s _ n id).2 h

theorem FiniteBelow_succ (env : Env) (s : Shimo) :
    ∀ (n : Nat) (id : String), FiniteBelow env s n id → FiniteBelow env s (n + 1) id := by
  intro n
  induction n with
  | zero => intro id h; exact h.elim
  | succ n ih =>
    intro id h c path w
    obtain ⟨r, hr, hd⟩ := h c path w
    exact ⟨r, hr, fun d hm => ih _ (hd d hm)⟩

theorem FiniteBelow_mono (env : Env) (s : Shimo) (n m : Nat) (id : String) (hnm : n ≤ m)
    (h : FiniteBelow env s n id) : FiniteBelow env s m id := by
  induction hnm with
  | refl => exact h
  | step _ ih => exact FiniteBelow_succ env s _ id ih

theorem buildDirs_total (build : Shimo → DirInfo → World → Outcome (Shimo × DirInfo × World))
    (s0 : Shimo)
    (hpost : ∀ s d w r, build s d w = .ok r → BuildPost s d r) :
    ∀ (dl : List DirInfo) (s : Shimo) (w : World),
      s.UserCfg = s0.UserCfg → s.HttpStrategy = s0.HttpStrategy →
      (∀ d ∈ dl, ∀ (s1 : Shimo) (w1 : World), s1.UserCfg = s0.UserCfg →
        s1.HttpStrategy = s0.HttpStrategy → ∃ r, build s1 d w1 = .ok r) →
      ∃ r, buildDirs build dl s w = .ok r := by
  intro dl
  induction dl with
  | nil => intro s w _ _ _; exact ⟨_, rfl⟩
  | cons d ds ih =>
    intro s w hu hh hall
    obtain ⟨r1, h1⟩ := hall d (List.mem_cons_self _ _) s w hu hh
    obtain ⟨_, hu1, hh1, _, _⟩ := hpost _ _ _ _ h1
    obtain ⟨rs, h2⟩ := ih r1.1 r1.2.2 (hu1.trans hu) (hh1.trans hh)
      (fun d hd => hall d (List.mem_cons_of_mem _ hd))
    refine ⟨(rs.1, r1.2.1 :: rs.2.1, rs.2.2), ?_⟩
    rw [buildDirs, h1, Outcome.bind_ok, h2, Outcome.bind_ok]

/-- On a finite hierarchy that is served reliably, discovery returns when its
fuel is at least the depth. -/
theorem BuildStructureTree_total (env : Env) :
    ∀ (n : Nat) (s : Shimo) (tree : DirInfo) (w : World),
      FiniteBelow env s n tree.info.Id → ∃ r, BuildStructureTree env n s tree w = .ok r := by
  intro n
  induction n with
  | zero => intro s tree w h; exact h.elim
  | succ n ih =>
    intro s tree w h
    obtain ⟨q, hq, hd⟩ := h s.FileCount tree.info.Path w
    have hq1 : fetchDirectoryInfo env s tree.info.Path tree.info.Id (some []) (some []) w = .ok q := hq
    obtain ⟨rs, hrs⟩ := buildDirs_total (fun s1 d w1 => BuildStructureTree env n s1 d w1) s
      (fun s d w r h => BuildStructureTree_post env n s d w r h)
      (q.1.1.getD []) (countFiles (q.1.2.getD []) s q.2).1 (countFiles (q.1.2.getD []) s q.2).2
      (by rw [countFiles_fst]) (by rw [countFiles_fst])
      (fun d hm s1 w1 hu hh => ih s1 d w1 (FiniteBelow_of_cfg env s s1 hu hh n _ (hd d hm)))
    refine ⟨(rs.1, .mk tree.info (some (q.1.1.map fun _ => rs.2.1)) (some q.1.2), rs.2.2), ?_⟩
    rw [BuildStructureTree, hq1, Outcome.bind_ok]
    dsimp only
    rw [hrs, Outcome.bind_ok]

theorem httpRequestN_echoEnv (listing : String → Option (List FileInfo)) (uri sid : String)
    (n : Nat) (w : World) :
    httpRequestN (echoEnv listing) uri sid n w =
      ((uri, none), { w with sent := w.sent ++ [uri] }) := by
  cases n <;> simp [httpRequestN, echoEnv, httpFinish]

theorem fetchDirectoryInfo_echoEnv (listing : String → Option (List FileInfo)) (s : Shimo)
    (path id : String) (w : World) (l : List FileInfo)
    (hl : listing (if id ≠ "" then listUri id else smUrl.Root) = some l) :
    fetchDirectoryInfo (echoEnv listing) s path id (some []) (some []) w =
      .ok (l.foldl (sortEntry path) (some [], some []),
        { w with sent := w.sent ++ [if id ≠ "" then listUri id else smUrl.Root] }) := by
  unfold fetchDirectoryInfo httpRequest
  dsimp only
  rw [httpRequestN_echoEnv]
  simp only [echoEnv, hl]

/-- The hierarchy of `abcListing` is finite, of depth 2 from the root. -/
theorem abcListing_finite (s : Shimo) : FiniteBelow (echoEnv abcListing) s 2 "" := by
  intro c path w
  refine ⟨_, fetchDirectoryInfo_echoEnv abcListing _ path "" w
    [entry "newdoc" "ida" "a", entry "folder" "idX" "X", entry "sheet" "ids" "s",
      entry "newdoc" "idb" "b", entry "folder" "idY" "Y"] (by decide!), ?_⟩
  intro d hd
  simp only [sortEntry_foldl] at hd
  have hd1 : d = createDirInfo path (entry "folder" "idX" "X") ∨
      d = createDirInfo path (entry "folder" "idY" "Y") := by
    simpa [entry] using hd
  rcases hd1 with rfl | rfl
  · intro c1 path1 w1
    refine ⟨_, fetchDirectoryInfo_echoEnv abcListing _ path1 "idX" w1
      [entry "newdoc" "idc" "c"] (by decide!), ?_⟩
    intro d1 hd1
    simp only [sortEntry_foldl] at hd1
    simp [entry] at hd1
  · intro c1 path1 w1
    refine ⟨_, fetchDirectoryInfo_echoEnv abcListing _ path1 "idY" w1 [] (by decide!), ?_⟩
    intro d1 hd1
    simp only [sortEntry_foldl] at hd1
    simp at hd1

/-- C7: on a finite acyclic remote hierarchy that is served reliably,
`BuildStructureTree` started with `FileCount` 0 returns, and `FileCount` is
then the number of document entries of the tree it built. -/
theorem BuildStructureTree_FileCount (env : Env) (s : Shimo) (n fuel : Nat) (tree : DirInfo)
    (w : World) (h0 : s.FileCount = 0) (hfin : FiniteBelow env s n tree.info.Id)
    (hfuel : n ≤ fuel) :
    ∃ r, BuildStructureTree env fuel s tree w = .ok r ∧
      r.1.FileCount = (countDocs r.2.1 : Int) := by
  obtain ⟨r, hr⟩ := BuildStructureTree_total env fuel s tree w
    (FiniteBelow_mono env s n fuel _ hfuel hfin)
  refine ⟨r, hr, ?_⟩
  have := (BuildStructureTree_post env fuel s tree w r hr).1
  rw [h0] at this
  simpa using this

theorem BuildStructureTree_FileCount_witness :
    demoShimo.FileCount = 0 ∧
      FiniteBelow (echoEnv abcListing) demoShimo 2 (rootDir "download").info.Id ∧
      (BuildStructureTree (echoEnv abcListing) 3 demoShimo (rootDir "download") emptyWorld).map
          (fun r => (r.1.FileCount, countDocs r.2.1)) = .ok (3, 3) ∧
      ∃ r, BuildStructureTree (echoEnv abcListing) 3 demoShimo (rootDir "download") emptyWorld =
          .ok r ∧ r.1.FileCount = (countDocs r.2.1 : Int) :=
  ⟨rfl, abcListing_finite demoShimo, by decide!,
    BuildStructureTree_FileCount (echoEnv abcListing) demoShimo 2 3 (rootDir "download") emptyWorld
      rfl (abcListing_finite demoShimo) (by decide)⟩

/-- C8: in every tree `BuildStructureTree` returns, the root keeps its path P,
every entry's path is its parent's path, `/` and its own title, and so the
path of every folder node and document entry is P followed by `/` and the
title for each title on the chain from the root's child down to it; and on a
finite hierarchy that is served reliably there is such a tree. -/
theorem BuildStructureTree_paths (env : Env) (s : Shimo) (fuel : Nat) (tree : DirInfo)
    (w : World) :
    (∀ r, BuildStructureTree env fuel s tree w = .ok r →
      r.2.1.info.Path = tree.info.Path ∧ wellPathed r.2.1 ∧
        ∀ e ∈ entries r.2.1, e.2 = chainPath tree.info.Path e.1) ∧
      (∀ n, FiniteBelow env s n tree.info.Id → n ≤ fuel →
        ∃ r, BuildStructureTree env fuel s tree w = .ok r) := by
  constructor
  · intro r hr
    obtain ⟨_, _, _, hi, hw⟩ := BuildStructureTree_post env fuel s tree w r hr
    refine ⟨by rw [hi], hw, ?_⟩
    intro e he
    rw [← hi]
    exact wellPathed_entries r.2.1 hw e he
  · intro n hfin hfuel
    exact BuildStructureTree_total env fuel s tree w (FiniteBelow_mono env s n fuel _ hfuel hfin)

theorem BuildStructureTree_paths_witness :
    ∃ r, BuildStructureTree (echoEnv abcListing) 3 demoShimo (rootDir "download") emptyWorld =
        .ok r ∧
      entries r.2.1 = [(["a"], "download/a"), (["b"], "download/b"), (["X"], "download/X"),
        (["X", "c"], "download/X/c"), (["Y"], "download/Y")] ∧
      chainPath "download" ["X", "c"] = "download/X/c" ∧
      r.2.1.info.Path = "download" ∧ wellPathed r.2.1 ∧
      ∀ e ∈ entries r.2.1, e.2 = chainPath "download" e.1 := by
  have hthm := BuildStructureTree_paths (echoEnv abcListing) demoShimo 3 (rootDir "download")
    emptyWorld
  obtain ⟨r, hr⟩ := hthm.2 2 (abcListing_finite demoShimo) (by decide)
  have hent := Outcome.map_of_eq_ok hr
    (by decide! : (BuildStructureTree (echoEnv abcListing) 3 demoShimo (rootDir "download")
      emptyWorld).map (fun r => entries r.2.1) =
        .ok [(["a"], "download/a"), (["b"], "download/b"), (["X"], "download/X"),
          (["X", "c"], "download/X/c"), (["Y"], "download/Y")])
  obtain ⟨h1, h2, h3⟩ := hthm.1 r hr
  exact ⟨r, hr, hent, by decide!, h1, h2, h3⟩

/-! ## Leaves -/

theorem buildDirs_recorded
    (build : Shimo → DirInfo → World → Outcome (Shimo × DirInfo × World))
    (hb : ∀ s d w r, build s d w = .ok r → recorded r.2.1) :
    ∀ (dl : List DirInfo) (s : Shimo) (w : World) (r : Shimo × List DirInfo × World),
      buildDirs build dl s w = .ok r → recordedList r.2.1 := by
  intro dl
  induction dl with
  | nil =>
    intro s w r h
    rw [buildDirs] at h
    cases h
    simp [recordedList]
  | cons d ds ih =>
    intro s w r h
    rw [buildDirs] at h
    obtain ⟨r1, h1, h⟩ := Outcome.bind_eq_ok h
    obtain ⟨rs, h2, h⟩ := Outcome.bind_eq_ok h
    cases h
    rw [recordedList]
    exact ⟨hb _ _ _ _ h1, ih _ _ _ h2⟩

/-- Discovery records both collections of every node of the tree it returns. -/
theorem BuildStructureTree_recorded (env : Env) :
    ∀ (fuel : Nat) (s : Shimo) (tree : DirInfo) (w : World) (r : Shimo × DirInfo × World),
      BuildStructureTree env fuel s tree w = .ok r → recorded r.2.1 := by
  intro fuel
  induction fuel with
  | zero => intro s tree w r h; simp [BuildStructureTree] at h
  | succ fuel ih =>
    intro s tree w r h
    rw [BuildStructureTree] at h
    obtain ⟨q, hq, h⟩ := Outcome.bind_eq_ok h
    obtain ⟨l, hdl, hfl⟩ := fetchDirectoryInfo_ok env s _ _ w q hq
    obtain ⟨⟨qd, qf⟩, qw⟩ := q
    simp only at hdl hfl
    subst hdl hfl
    dsimp only at h
    obtain ⟨rs, h2, h⟩ := Outcome.bind_eq_ok h
    cases h
    have hrec := buildDirs_recorded (fun s1 d w1 => BuildStructureTree env fuel s1 d w1)
      (fun s d w r h => ih s d w r h) _ _ _ rs h2
    show recorded (DirInfo.mk tree.info (some (some rs.2.1))
      (some (some ((l.filter (fun e => e.Kind = "newdoc")).map
        (createFileInfo tree.info.Path)))))
    rw [recorded]
    exact ⟨⟨_, rfl⟩, hrec⟩

/-- C10, as the program has it: when the documents of a node are processed and
that returns, a node whose `Dirs` points to a nil slice is a leaf
(`TraverseTree` returns the node with the world the documents left, plus the
leaf line in the log, and visits nothing else), while a node whose `Dirs`
points to an empty slice returns without that line; and in every tree that
`BuildStructureTree` returns, `Dirs` of every node points to a slice that is
not nil. -/
theorem TraverseTree_leaf (env : Env) (s : Shimo) (fuel : Nat) :
    (∀ (info : FileInfo) (files : Option (Option (List FileInfo))) (w : World)
        (r : Option (Option (List FileInfo)) × World),
        traverseFiles env s fuel files w = .ok r →
        TraverseTree env s fuel (.mk info (some none) files) w =
            .ok (.mk info (some none) r.1, r.2.logLine (leafLine info.Id)) ∧
          TraverseTree env s fuel (.mk info (some (some [])) files) w =
            .ok (.mk info (some (some [])) r.1, r.2)) ∧
      (∀ (s0 : Shimo) (tree : DirInfo) (w : World) (b : Shimo × DirInfo × World),
        BuildStructureTree env fuel s0 tree w = .ok b → recorded b.2.1) := by
  refine ⟨?_, fun s0 tree w b h => BuildStructureTree_recorded env fuel s0 tree w b h⟩
  intro info files w r h
  constructor
  · rw [TraverseTree, h, Outcome.bind_ok]
  · rw [TraverseTree, h, Outcome.bind_ok, traverseDirs, Outcome.bind_ok]

theorem TraverseTree_leaf_witness :
    ∃ (r : Option (Option (List FileInfo)) × World) (b : Shimo × DirInfo × World),
      traverseFiles (echoEnv abcListing) demoShimo 3 (folderX none).Files freshWorld = .ok r ∧
        r.2.downloaded.map FileInfo.Title = ["a"] ∧
        TraverseTree (echoEnv abcListing) demoShimo 3 (folderX none) freshWorld =
          .ok (.mk (folderX none).info (some none) r.1, r.2.logLine (leafLine "idX")) ∧
        TraverseTree (echoEnv abcListing) demoShimo 3 (folderX (some [])) freshWorld =
          .ok (.mk (folderX none).info (some (some [])) r.1, r.2) ∧
        (TraverseTree (echoEnv abcListing) demoShimo 3 (folderX none) freshWorld).map
            (fun t => (t.2.log.getLast?, t.2.downloaded.map FileInfo.Title)) =
          .ok (some (leafLine "idX"), ["a"]) ∧
        (TraverseTree (echoEnv abcListing) demoShimo 3 (folderX (some [])) freshWorld).map
            (fun t => (t.2.log.contains (leafLine "idX"), t.2.downloaded.map FileInfo.Title)) =
          .ok (false, ["a"]) ∧
        BuildStructureTree (echoEnv abcListing) 3 demoShimo (rootDir "download") emptyWorld =
          .ok b ∧
        recorded b.2.1 := by
  have hthm := TraverseTree_leaf (echoEnv abcListing) demoShimo 3
  obtain ⟨r, hr⟩ := Outcome.exists_of_isOk
    (by decide! : (traverseFiles (echoEnv abcListing) demoShimo 3 (folderX none).Files
      freshWorld).isOk = true)
  obtain ⟨b, hb⟩ := Outcome.exists_of_isOk
    (by decide! : (BuildStructureTree (echoEnv abcListing) 3 demoShimo (rootDir "download")
      emptyWorld).isOk = true)
  have hdl := Outcome.map_of_eq_ok hr
    (by decide! : (traverseFiles (echoEnv abcListing) demoShimo 3 (folderX none).Files
      freshWorld).map (fun r => r.2.downloaded.map FileInfo.Title) = .ok ["a"])
  obtain ⟨h1, h2⟩ := hthm.1 (folderX none).info (folderX none).Files freshWorld r hr
  exact ⟨r, b, hr, hdl, h1, h2, by decide!, by decide!, hb, hthm.2 demoShimo _ _ b hb⟩

end ShimoExporter
